import Mathlib

/-!
# DbMigrationTool: versioned SQL migration engine

A shallow embedding of `src/db_version.h` and `src/db_migration_tool.cpp`.

* `DbVersion` with `operator<`, `operator==`, `operator>`.
* `QMap<DbVersion, QString>` as a key-sorted association list; an iterator is the
  remaining suffix of that list (`constEnd` is the empty suffix, `++iter` is the tail).
* The file system is a function from paths to `FileEntry`.
* The connection (`QSqlDatabase`) carries the visible database content, the snapshot
  taken by an open transaction and a log of every statement the tool issued.
  Statements of user scripts are interpreted by an arbitrary driver, which acts
  on the content and on the open transaction; the statements on the table
  `dbMetaInfo` have their SQL meaning when the driver carries them out.
* Transactions follow the SQLite driver the source is written for: `transaction()` is
  refused while one is open, `commit()` and `rollback()` end the open one and do
  nothing when none is open. A script statement may itself end or open the transaction.
* `CREATE TABLE IF NOT EXISTS`, `INSERT` and `UPDATE` on `dbMetaInfo` fail when the
  driver refuses them (a read-only or locked database); `INSERT`, `UPDATE` and
  `SELECT` also fail when the table is not in the catalog; an `UPDATE` matching no
  row succeeds.
* A bare `throw;` evaluated while no exception is being handled calls
  `std::terminate`; it is modelled by `Result.terminated`.
* Versions are read and written through `int` (`setVersion(key, int)`, `toInt`), hence
  `toInt` and `toUnsigned` with their wrap-around at 32 bits.
-/

namespace DbMigration

/-! ## DbVersion (`src/db_version.h`) -/

/-- Version triple; the three fields are `unsigned` in the source. -/
structure DbVersion where
  major : Nat := 0
  minor : Nat := 0
  update : Nat := 0
deriving DecidableEq, Repr

namespace DbVersion

/-- The member `operator<`: compares major, then minor, then update. -/
def lt (a b : DbVersion) : Bool :=
  if a.major ≠ b.major then decide (a.major < b.major)
  else if a.minor ≠ b.minor then decide (a.minor < b.minor)
  else decide (a.update < b.update)

/-- The member `operator==`: all three fields agree. -/
def eq (a b : DbVersion) : Bool :=
  decide (a.major = b.major) && decide (a.minor = b.minor) && decide (a.update = b.update)

/-- The member `operator>`: neither less nor equal. -/
def gt (a b : DbVersion) : Bool :=
  !(a.lt b) && !(a.eq b)

/-- Every field fits the 32-bit `unsigned` of the source. -/
def InRange (v : DbVersion) : Prop :=
  v.major < 4294967296 ∧ v.minor < 4294967296 ∧ v.update < 4294967296

instance (v : DbVersion) : Decidable v.InRange := by
  unfold InRange; exact inferInstance

end DbVersion

/-- Conversion `unsigned -> int` done when a field is passed to `setVersion(key, int)`. -/
def toInt (n : Nat) : Int :=
  if n % 4294967296 < 2147483648 then ((n % 4294967296 : Nat) : Int)
  else ((n % 4294967296 : Nat) : Int) - 4294967296

/-- Conversion `int -> unsigned` done when `getVersion` stores a read value in a field. -/
def toUnsigned (i : Int) : Nat :=
  (i % 4294967296).toNat

/-! ## QMap<DbVersion, QString> -/

/-- The map `m_migrationPath`, kept as a list of entries in ascending key order. -/
abbrev QMap := List (DbVersion × String)

namespace QMap

/-- Key equivalence used by the map: neither key is less than the other. -/
def equiv (a b : DbVersion) : Bool :=
  !(a.lt b) && !(b.lt a)

/-- The call `contains(key)`. -/
def contains (m : QMap) (k : DbVersion) : Bool :=
  m.any (fun e => equiv e.1 k)

/-- The call `insert(key, value)`: ordered insertion, an equivalent key has its value replaced. -/
def insert : QMap → DbVersion → String → QMap
  | [], k, p => [(k, p)]
  | (k0, p0) :: rest, k, p =>
    if k.lt k0 then (k, p) :: (k0, p0) :: rest
    else if k0.lt k then (k0, p0) :: insert rest k p
    else (k0, p) :: rest

/-- The call `constFind(key)`: the iterator at the entry with an equivalent key, `constEnd` if none. -/
def constFind : QMap → DbVersion → QMap
  | [], _ => []
  | (k0, p0) :: rest, k => if equiv k0 k then (k0, p0) :: rest else constFind rest k

/-- The call `lastKey()`, defined on a non-empty map only. -/
def lastKey (m : QMap) : Option DbVersion :=
  m.getLast?.map Prod.fst

/-- The call `value(key)`: the path stored under an equivalent key. -/
def value (m : QMap) (k : DbVersion) : Option String :=
  (m.find? (fun e => equiv e.1 k)).map Prod.snd

/-- Keys strictly ascending under `operator<`: the invariant of the map. -/
def Sorted (m : QMap) : Prop :=
  List.Pairwise (fun a b => DbVersion.lt a.1 b.1 = true) m

instance (m : QMap) : Decidable m.Sorted := by
  unfold Sorted; exact inferInstance

end QMap

/-! ## Files and the script reader -/

/-- What the file system holds under a path. -/
inductive FileEntry where
  | absent
  | unreadable
  | readable (text : String)
deriving DecidableEq, Repr

/-- The file system seen through `QFile`. -/
abbrev FileSystem := String → FileEntry

/-- The call `QFile::exists()`. -/
def fileExists (fs : FileSystem) (path : String) : Bool :=
  match fs path with
  | .absent => false
  | _ => true

/-- The function `tryOpenFile`: the file exists and opens for reading. -/
def tryOpenFile (fs : FileSystem) (path : String) : Bool :=
  if !fileExists fs path then false
  else match fs path with
    | .readable _ => true
    | _ => false

/-- The predicate `QChar::isSpace`: the separator characters and the control characters 9 to 13, 0x85. -/
def isSpace (c : Char) : Bool :=
  let n := c.toNat
  decide (n = 32) || (decide (9 ≤ n) && decide (n ≤ 13)) || decide (n = 133) || decide (n = 160)
    || decide (n = 5760) || (decide (8192 ≤ n) && decide (n ≤ 8202)) || decide (n = 8232)
    || decide (n = 8233) || decide (n = 8239) || decide (n = 8287) || decide (n = 12288)

/-- The call `QString::split(sep)` with the default `KeepEmptyParts`. -/
def splitChars (sep : Char) : List Char → List (List Char)
  | [] => [[]]
  | c :: cs =>
    if c = sep then [] :: splitChars sep cs
    else match splitChars sep cs with
      | [] => [[c]]
      | f :: fs => (c :: f) :: fs

/-- The call `QString::trimmed()`: whitespace removed from both ends. -/
def trimmed (s : List Char) : List Char :=
  ((s.dropWhile isSpace).reverse.dropWhile isSpace).reverse

/-- The loop of `readQueries` over the fragments: a fragment is skipped when its trimmed
form is empty, otherwise the fragment itself is appended. -/
def keepQueries : List (List Char) → List (List Char)
  | [] => []
  | q :: qs => if (trimmed q).isEmpty then keepQueries qs else q :: keepQueries qs

/-- The function `DbMigrationTool::readQueries`. -/
def readQueries (fs : FileSystem) (path : String) : Option (List String) :=
  match fs path with
  | .readable text => some ((keepQueries (splitChars ';' text.data)).map String.mk)
  | _ => none

/-- The reader as the specification words it: split, trim every fragment, drop the empty
ones, keep the trimmed fragments in order. -/
def specReadQueries (text : String) : List String :=
  (((splitChars ';' text.data).map trimmed).filter (fun f => !f.isEmpty)).map String.mk

/-! ## The tool and its script store -/

/-- The exception type `DbMigrationException`, one constructor per throw site. -/
inductive DbMigrationException where
  | baselineFailed
  | noMetaInfoTable
  | migrationFailed
  | addTableFailed
  | addRowFailed
  | readVersionFailed (key : String)
  | duplicateVersion (path : String)
  | cannotOpen (path : String)
deriving DecidableEq, Repr

/-- How a call ends: it returns a value, throws a `DbMigrationException`, or the process
is ended by `std::terminate`. -/
inductive Result (α : Type) where
  | ret (a : α)
  | thrown (e : DbMigrationException)
  | terminated
deriving DecidableEq, Repr

/-- The data members of `DbMigrationTool` other than the connection. -/
structure DbMigrationTool where
  m_baselinePath : String := ""
  m_migrationPath : QMap := []
  m_firstInit : Bool := false
deriving DecidableEq, Repr

/-- The method `setBaselineScript`. -/
def setBaselineScript (fs : FileSystem) (t : DbMigrationTool) (path : String) :
    Result Unit × DbMigrationTool :=
  if tryOpenFile fs path then (.ret (), { t with m_baselinePath := path })
  else (.thrown (.cannotOpen path), t)

/-- The method `addMigrationScript(path, version)`. -/
def addMigrationScript (fs : FileSystem) (t : DbMigrationTool) (path : String) (version : DbVersion) :
    Result Unit × DbMigrationTool :=
  if t.m_migrationPath.contains version then (.thrown (.duplicateVersion path), t)
  else if tryOpenFile fs path then
    (.ret (), { t with m_migrationPath := t.m_migrationPath.insert version path })
  else (.thrown (.cannotOpen path), t)

/-- A sequence of registration calls on one tool, failed calls included. -/
def registerAll (fs : FileSystem) (t : DbMigrationTool) : List (String × DbVersion) → DbMigrationTool
  | [] => t
  | (p, v) :: rest => registerAll fs (addMigrationScript fs t p v).2 rest

/-! ## The database connection -/

/-- Name of the metadata table. -/
def DB_INFO_TABLE : String := "dbMetaInfo"

/-- Key of the row holding the major number. -/
def DB_VERSION_MAJOR : String := "v_major"

/-- Key of the row holding the minor number. -/
def DB_VERSION_MINOR : String := "v_minor"

/-- Key of the row holding the update number. -/
def DB_VERSION_UPDATE : String := "v_update"

/-- Content of the database: the table catalog, the rows `(info, data)` of `dbMetaInfo`
(`data` is `some i` when it converts to the integer `i`), and everything else. -/
structure DbData (σ : Type) where
  tables : List String
  rows : List (String × Option Int)
  user : σ
deriving DecidableEq, Repr

/-- What the tool did to the database, in order. `beginMigration` marks the point where
the loop of `runMigrationScripts` opens the transaction of an entry. -/
inductive Event where
  | createInfoTable (ok : Bool)
  | insertRow (key : String) (ok : Bool)
  | updateRow (key : String) (value : Int) (ok : Bool)
  | beginMigration (v : DbVersion) (path : String)
  | statement (origin : Option DbVersion) (text : String) (ok : Bool)
deriving DecidableEq, Repr

/-- The success flag an event carries; the marker `beginMigration` counts as a success. -/
def Event.succeeded : Event → Bool
  | .createInfoTable ok => ok
  | .insertRow _ ok => ok
  | .updateRow _ _ ok => ok
  | .beginMigration _ _ => true
  | .statement _ _ ok => ok

/-- The connection `db`: visible content, the snapshot of the open transaction if any,
and the log of issued statements. -/
structure QSqlDatabase (σ : Type) where
  data : DbData σ
  snapshot : Option (DbData σ)
  log : List Event
deriving DecidableEq, Repr

/-- The statements the tool itself issues on the table `dbMetaInfo`. -/
inductive MetaQuery where
  | createTable
  | insertRow (key : String)
  | updateRow (key : String) (value : Int)
deriving DecidableEq, Repr

/-- A driver. `exec content snapshot text` is what `QSqlQuery::exec(text)` does for a
script statement: its success flag, the new content and the new transaction snapshot
(a statement such as `COMMIT` ends the transaction). `accepts content q` tells whether
the driver carries out the statement `q` of the tool on the metadata table. -/
structure Driver (σ : Type) where
  exec : DbData σ → Option (DbData σ) → String → Bool × DbData σ × Option (DbData σ)
  accepts : DbData σ → MetaQuery → Bool

namespace QSqlDatabase

variable {σ : Type}

/-- The call `db.transaction()`: takes a snapshot unless a transaction is already open. -/
def transaction (c : QSqlDatabase σ) : QSqlDatabase σ :=
  match c.snapshot with
  | none => { c with snapshot := some c.data }
  | some _ => c

/-- The call `db.commit()`: ends the open transaction keeping the content. -/
def commit (c : QSqlDatabase σ) : QSqlDatabase σ :=
  { c with snapshot := none }

/-- The call `db.rollback()`: ends the open transaction restoring its snapshot. -/
def rollback (c : QSqlDatabase σ) : QSqlDatabase σ :=
  match c.snapshot with
  | none => c
  | some s => { c with data := s, snapshot := none }

/-- Appends one event to the log. -/
def record (c : QSqlDatabase σ) (e : Event) : QSqlDatabase σ :=
  { c with log := c.log ++ [e] }

end QSqlDatabase

/-! ## Statements on the metadata table -/

section Engine

variable {σ : Type}

/-- The method `runScript`: runs one script statement through the driver. -/
def runScript (drv : Driver σ) (origin : Option DbVersion) (script : String)
    (c : QSqlDatabase σ) : Bool × QSqlDatabase σ :=
  match drv.exec c.data c.snapshot script with
  | (ok, d, sn) =>
    (ok, ({ c with data := d, snapshot := sn } : QSqlDatabase σ).record (.statement origin script ok))

/-- The result of the `SELECT` of `getVersion(key)`: the `data` of the first row whose
`info` is the key, converted by `toInt`; nothing when the table or the row is missing or
the conversion fails. -/
def getVersionField (d : DbData σ) (key : String) : Option Int :=
  if DB_INFO_TABLE ∈ d.tables then
    match d.rows.find? (fun r => r.1 = key) with
    | some r => r.2
    | none => none
  else none

deriving instance DecidableEq for Except

/-- The method `getVersion()`: reads the three fields, throwing at the first one that
cannot be read. -/
def getVersion (c : QSqlDatabase σ) : Except DbMigrationException DbVersion :=
  match getVersionField c.data DB_VERSION_MAJOR with
  | none => .error (.readVersionFailed DB_VERSION_MAJOR)
  | some a =>
    match getVersionField c.data DB_VERSION_MINOR with
    | none => .error (.readVersionFailed DB_VERSION_MINOR)
    | some b =>
      match getVersionField c.data DB_VERSION_UPDATE with
      | none => .error (.readVersionFailed DB_VERSION_UPDATE)
      | some u => .ok { major := toUnsigned a, minor := toUnsigned b, update := toUnsigned u }

/-- The method `addInfoTable`: `CREATE TABLE IF NOT EXISTS dbMetaInfo`; it returns `false`
when the driver fails the statement. -/
def addInfoTable (drv : Driver σ) (c : QSqlDatabase σ) : Bool × QSqlDatabase σ :=
  if !drv.accepts c.data .createTable then (false, c.record (.createInfoTable false))
  else if DB_INFO_TABLE ∈ c.data.tables then (true, c.record (.createInfoTable true))
  else
    (true, ({ c with data := { c.data with tables := c.data.tables ++ [DB_INFO_TABLE], rows := [] } } :
      QSqlDatabase σ).record (.createInfoTable true))

/-- The method `addVersionRow`: `INSERT INTO dbMetaInfo (info, data) VALUES (key, 0)`. -/
def addVersionRow (drv : Driver σ) (key : String) (c : QSqlDatabase σ) : Bool × QSqlDatabase σ :=
  if DB_INFO_TABLE ∈ c.data.tables ∧ drv.accepts c.data (.insertRow key) = true then
    (true, ({ c with data := { c.data with rows := c.data.rows ++ [(key, some 0)] } } :
      QSqlDatabase σ).record (.insertRow key true))
  else (false, c.record (.insertRow key false))

/-- The method `addVersionRows`. A failed insert reaches the bare `throw;`. -/
def addVersionRows (drv : Driver σ) (c : QSqlDatabase σ) : Result Bool × QSqlDatabase σ :=
  let c0 := c.transaction
  match addVersionRow drv DB_VERSION_MAJOR c0 with
  | (false, c1) => (.terminated, c1)
  | (true, c1) =>
    match addVersionRow drv DB_VERSION_MINOR c1 with
    | (false, c2) => (.terminated, c2)
    | (true, c2) =>
      match addVersionRow drv DB_VERSION_UPDATE c2 with
      | (false, c3) => (.terminated, c3)
      | (true, c3) => (.ret true, c3.commit)

/-- The effect of `UPDATE ... SET data = value WHERE info = key` on one row. -/
def setRow (key : String) (value : Int) (r : String × Option Int) : String × Option Int :=
  if r.1 = key then (r.1, some value) else r

/-- The method `setVersion(key, value)`: `UPDATE dbMetaInfo SET data = value WHERE info = key`. -/
def setVersionField (drv : Driver σ) (key : String) (value : Int) (c : QSqlDatabase σ) :
    Bool × QSqlDatabase σ :=
  if DB_INFO_TABLE ∈ c.data.tables ∧ drv.accepts c.data (.updateRow key value) = true then
    (true, ({ c with data := { c.data with rows := c.data.rows.map (setRow key value) } } :
      QSqlDatabase σ).record (.updateRow key value true))
  else (false, c.record (.updateRow key value false))

/-- The metadata rows hold a row whose `info` is the key. -/
def hasKey (d : DbData σ) (key : String) : Bool :=
  d.rows.any (fun r => decide (r.1 = key))

/-- The method `setVersion(v)`. A failed update reaches the bare `throw;`. -/
def setVersion (drv : Driver σ) (v : DbVersion) (c : QSqlDatabase σ) :
    Result Bool × QSqlDatabase σ :=
  let c0 := c.transaction
  match setVersionField drv DB_VERSION_MAJOR (toInt v.major) c0 with
  | (false, c1) => (.terminated, c1)
  | (true, c1) =>
    match setVersionField drv DB_VERSION_MINOR (toInt v.minor) c1 with
    | (false, c2) => (.terminated, c2)
    | (true, c2) =>
      match setVersionField drv DB_VERSION_UPDATE (toInt v.update) c2 with
      | (false, c3) => (.terminated, c3)
      | (true, c3) => (.ret true, c3.commit)

/-- The method `addMetaInfo`. -/
def addMetaInfo (drv : Driver σ) (t : DbMigrationTool) (c : QSqlDatabase σ) :
    Result Unit × DbMigrationTool × QSqlDatabase σ :=
  let t1 := { t with m_firstInit := true }
  let c0 := c.transaction
  match addInfoTable drv c0 with
  | (false, c1) => (.thrown .addTableFailed, t1, c1)
  | (true, c1) =>
    match addVersionRows drv c1 with
    | (.ret true, c2) => (.ret (), t1, c2.commit)
    | (.ret false, c2) => (.thrown .addRowFailed, t1, c2)
    | (.thrown e, c2) => (.thrown e, t1, c2)
    | (.terminated, c2) => (.terminated, t1, c2)

/-! ## Running scripts -/

/-- The statement loop shared by `runBaselineScripts` and `runMigrationScripts`: the
first failing statement rolls the transaction back and ends the loop with `false`. -/
def runStatements (drv : Driver σ) (origin : Option DbVersion) :
    List String → QSqlDatabase σ → Bool × QSqlDatabase σ
  | [], c => (true, c)
  | q :: qs, c =>
    match runScript drv origin q c with
    | (true, c1) => runStatements drv origin qs c1
    | (false, c1) => (false, c1.rollback)

/-- The method `runBaselineScripts`. -/
def runBaselineScripts (fs : FileSystem) (drv : Driver σ) (t : DbMigrationTool)
    (c : QSqlDatabase σ) : Bool × QSqlDatabase σ :=
  if !fileExists fs t.m_baselinePath then (false, c)
  else
    match readQueries fs t.m_baselinePath with
    | some queries =>
      match runStatements drv none queries c.transaction with
      | (true, c1) => (true, c1.commit)
      | (false, c1) => (false, c1)
    | none => (true, c)

/-- The `while` loop of `runMigrationScripts`, from iterator `iter` to `constEnd`. -/
def migrationLoop (fs : FileSystem) (drv : Driver σ) :
    QMap → QSqlDatabase σ → Result Bool × QSqlDatabase σ
  | [], c => (.ret true, c)
  | (v, path) :: rest, c =>
    match readQueries fs path with
    | some queries =>
      match runStatements drv (some v) queries (c.transaction.record (.beginMigration v path)) with
      | (false, c1) => (.ret false, c1)
      | (true, c1) =>
        match setVersion drv v c1 with
        | (.ret true, c2) => migrationLoop fs drv rest c2.commit
        | (.ret false, c2) => (.ret false, c2.rollback)
        | (r, c2) => (r, c2)
    | none => (.ret false, c)

/-- The iterator `runMigrationScripts` starts its loop from, given the stored version. -/
def startIter (t : DbMigrationTool) (version : DbVersion) : QMap :=
  if t.m_firstInit || version.eq {} then t.m_migrationPath
  else
    match t.m_migrationPath.constFind version with
    | [] => []
    | _ :: next => next

/-- The method `runMigrationScripts`. -/
def runMigrationScripts (fs : FileSystem) (drv : Driver σ) (t : DbMigrationTool)
    (c : QSqlDatabase σ) : Result Bool × QSqlDatabase σ :=
  match getVersion c with
  | .error e => (.thrown e, c)
  | .ok version =>
    let iter := startIter t version
    if iter.isEmpty then (.ret true, c)
    else
      match migrationLoop fs drv iter c with
      | (.ret true, c1) =>
        match t.m_migrationPath.lastKey with
        | some k => setVersion drv k c1.commit
        | none => (.terminated, c1.commit)
      | (r, c1) => (r, c1)

/-- The first statement of `update()`: the bootstrap of an empty database, or the check
that a non-empty one has the metadata table. -/
def updatePrelude (fs : FileSystem) (drv : Driver σ) (t : DbMigrationTool)
    (c : QSqlDatabase σ) : Result Unit × DbMigrationTool × QSqlDatabase σ :=
  if c.data.tables.isEmpty then
    match addMetaInfo drv t c with
    | (.ret (), t1, c1) =>
      match runBaselineScripts fs drv t1 c1 with
      | (false, c2) => (.thrown .baselineFailed, t1, c2)
      | (true, c2) => (.ret (), t1, c2)
    | r => r
  else if !c.data.tables.contains DB_INFO_TABLE then (.thrown .noMetaInfoTable, t, c)
  else (.ret (), t, c)

/-- The method `update()`. -/
def update (fs : FileSystem) (drv : Driver σ) (t : DbMigrationTool)
    (c : QSqlDatabase σ) : Result Unit × DbMigrationTool × QSqlDatabase σ :=
  match updatePrelude fs drv t c with
  | (.ret (), t1, c1) =>
    match runMigrationScripts fs drv t1 c1 with
    | (.ret true, c2) => (.ret (), t1, c2)
    | (.ret false, c2) => (.thrown .migrationFailed, t1, c2)
    | (.thrown e, c2) => (.thrown e, t1, c2)
    | (.terminated, c2) => (.terminated, t1, c2)
  | r => r

/-! ## Reading the log -/

/-- Entries `(version, path)` whose transaction the migration loop opened, in order. -/
def appliedScripts : List Event → QMap
  | [] => []
  | .beginMigration v p :: es => (v, p) :: appliedScripts es
  | _ :: es => appliedScripts es

/-- Versions of the entries whose transaction the migration loop opened, in order. -/
def appliedVersions (log : List Event) : List DbVersion :=
  (appliedScripts log).map Prod.fst

/-- The content and transaction snapshot reached by running statements one after the other
through the driver, `none` as soon as one fails. -/
def execAll (drv : Driver σ) :
    DbData σ → Option (DbData σ) → List String → Option (DbData σ × Option (DbData σ))
  | d, sn, [] => some (d, sn)
  | d, sn, q :: qs =>
    match drv.exec d sn q with
    | (true, d1, sn1) => execAll drv d1 sn1 qs
    | (false, _, _) => none

/-- The executed statements of migration scripts, each with the version of its entry, in
order. -/
def migrationStatements : List Event → List (DbVersion × String)
  | [] => []
  | .statement (some v) text _ :: es => (v, text) :: migrationStatements es
  | _ :: es => migrationStatements es

/-- The statements of the scripts of the given entries, each with the version of its
entry, entry after entry. -/
def scriptStatements (fs : FileSystem) : QMap → List (DbVersion × String)
  | [] => []
  | (v, path) :: rest =>
    ((readQueries fs path).getD []).map (fun q => (v, q)) ++ scriptStatements fs rest

/-- Versions tagging the executed statements of migration scripts, in order. -/
def statementVersions : List Event → List DbVersion
  | [] => []
  | .statement (some v) _ _ :: es => v :: statementVersions es
  | _ :: es => statementVersions es

end Engine

/-! ## Concrete inputs -/

/-- A driver on a statement journal: the statement `FAIL` fails, `COMMIT` ends the open
transaction (and fails when none is open), every other statement succeeds and is appended
to the journal; every statement of the tool on the metadata table is carried out. -/
def journalDriver : Driver (List String) :=
  { exec := fun d sn s =>
      if s = "FAIL" then (false, d, sn)
      else if s = "COMMIT" then (sn.isSome, d, none)
      else (true, { d with user := d.user ++ [s] }, sn)
    accepts := fun _ _ => true }

/-- An empty database with no open transaction and an empty log. -/
def emptyDb : QSqlDatabase (List String) :=
  { data := { tables := [], rows := [], user := [] }, snapshot := none, log := [] }

/-- A database holding the metadata table at the given version and one user table. -/
def dbAt (a b u : Int) : QSqlDatabase (List String) :=
  { data := { tables := ["dbMetaInfo", "t"],
              rows := [("v_major", some a), ("v_minor", some b), ("v_update", some u)],
              user := [] },
    snapshot := none, log := [] }

/-- A file system with no file at all. -/
def noFiles : FileSystem := fun _ => .absent

/-- A file system holding one script per version used in the examples. -/
def sampleFiles : FileSystem := fun p =>
  if p = "base.sql" then .readable "CREATE TABLE t;"
  else if p = "m100.sql" then .readable " A1; A2 ;"
  else if p = "m110.sql" then .readable "B1"
  else if p = "m120.sql" then .readable "C1;"
  else if p = "m200.sql" then .readable "D1;D2"
  else if p = "bad.sql" then .readable "E1;FAIL;E2"
  else if p = "commit.sql" then .readable "E1;COMMIT;FAIL;E2"
  else if p = "m000.sql" then .readable "Z1"
  else .absent

/-- A tool with the versions 1.0.0, 1.1.0 and 2.0.0 registered and no baseline. -/
def sampleTool : DbMigrationTool :=
  { m_migrationPath := [(⟨1, 0, 0⟩, "m100.sql"), (⟨1, 1, 0⟩, "m110.sql"), (⟨2, 0, 0⟩, "m200.sql")] }

/-- A tool with 1.0.0, 1.1.0 and 2.0.0 registered, the script of 2.0.0 failing at its
second statement. -/
def badTool : DbMigrationTool :=
  { m_migrationPath := [(⟨1, 0, 0⟩, "m100.sql"), (⟨1, 1, 0⟩, "m110.sql"), (⟨2, 0, 0⟩, "bad.sql")] }

/-- The sample tool with the baseline `base.sql` registered. -/
def baselineTool : DbMigrationTool :=
  { sampleTool with m_baselinePath := "base.sql" }

/-- A tool whose only registered version is 0.0.0. -/
def zeroTool : DbMigrationTool :=
  { m_migrationPath := [(⟨0, 0, 0⟩, "m000.sql")] }

/-- A driver of a read-only database: no statement is carried out. -/
def readOnlyDriver : Driver (List String) :=
  { exec := fun d sn _ => (false, d, sn)
    accepts := fun _ _ => false }

/-- A tool with 1.0.0, 1.1.0 and 2.0.0 registered, the script of 2.0.0 committing after
its first statement and failing at its third. -/
def commitTool : DbMigrationTool :=
  { m_migrationPath := [(⟨1, 0, 0⟩, "m100.sql"), (⟨1, 1, 0⟩, "m110.sql"), (⟨2, 0, 0⟩, "commit.sql")] }

/-- The sample files after `m110.sql` has been removed. -/
def removedFiles : FileSystem := fun p =>
  if p = "m110.sql" then .absent else sampleFiles p

end DbMigration

/-! # Properties -/

namespace DbMigration

/-! ## Order on versions -/

theorem DbVersion.lt_iff (a b : DbVersion) :
    a.lt b = true ↔
      a.major < b.major ∨ (a.major = b.major ∧
        (a.minor < b.minor ∨ (a.minor = b.minor ∧ a.update < b.update))) := by
  unfold DbVersion.lt
  split_ifs with h1 h2 <;> simp only [decide_eq_true_eq] <;> omega

theorem DbVersion.eq_iff (a b : DbVersion) : a.eq b = true ↔ a = b := by
  cases a; cases b
  simp [DbVersion.eq, and_assoc]

theorem DbVersion.lt_irrefl (a : DbVersion) : a.lt a = false := by
  cases h : a.lt a
  · rfl
  · rw [DbVersion.lt_iff] at h; omega

theorem DbVersion.lt_trans {a b c : DbVersion} (h1 : a.lt b = true) (h2 : b.lt c = true) :
    a.lt c = true := by
  rw [DbVersion.lt_iff] at *; omega

theorem DbVersion.lt_asymm {a b : DbVersion} (h : a.lt b = true) : b.lt a = false := by
  cases h2 : b.lt a
  · rfl
  · rw [DbVersion.lt_iff] at *; omega

theorem QMap.equiv_iff (a b : DbVersion) : QMap.equiv a b = true ↔ a = b := by
  unfold QMap.equiv
  constructor
  · intro h
    simp only [Bool.and_eq_true, Bool.not_eq_true', ← Bool.not_eq_true, DbVersion.lt_iff] at h
    cases a; cases b
    simp only [DbVersion.mk.injEq] at *
    omega
  · rintro rfl
    simp [DbVersion.lt_irrefl]

/-- C8: `operator<` is the lexicographic order on (major, minor, update); it is
irreflexive and transitive; exactly one of `a < b`, `a == b`, `a > b` holds; `a > b` is
`b < a`; and `a == b` holds exactly when the three components are equal. -/
theorem dbVersion_strict_total_order (a b c : DbVersion) :
    (a.lt b = true ↔
      a.major < b.major ∨ (a.major = b.major ∧
        (a.minor < b.minor ∨ (a.minor = b.minor ∧ a.update < b.update)))) ∧
    a.lt a = false ∧
    (a.lt b = true → b.lt c = true → a.lt c = true) ∧
    ((a.lt b = true ∧ a.eq b = false ∧ a.gt b = false) ∨
      (a.lt b = false ∧ a.eq b = true ∧ a.gt b = false) ∨
      (a.lt b = false ∧ a.eq b = false ∧ a.gt b = true)) ∧
    (a.gt b = true ↔ b.lt a = true) ∧
    (a.eq b = true ↔ a.major = b.major ∧ a.minor = b.minor ∧ a.update = b.update) := by
  have heq : a.eq b = true ↔ a.major = b.major ∧ a.minor = b.minor ∧ a.update = b.update := by
    simp [DbVersion.eq, and_assoc]
  refine ⟨DbVersion.lt_iff a b, DbVersion.lt_irrefl a, DbVersion.lt_trans, ?_, ?_, heq⟩
  · have hl := DbVersion.lt_iff a b
    unfold DbVersion.gt
    cases h1 : a.lt b <;> cases h2 : a.eq b <;> simp
    rw [h2] at heq; rw [h1] at hl; simp at hl heq; omega
  · have hl := DbVersion.lt_iff a b
    have hr := DbVersion.lt_iff b a
    unfold DbVersion.gt
    cases h1 : a.lt b <;> cases h2 : a.eq b <;> cases h3 : b.lt a <;>
      rw [h1] at hl <;> rw [h2] at heq <;> rw [h3] at hr <;> simp at hl hr heq ⊢ <;> omega

/-- Instance of C8 at the versions 1.0.0, 1.1.0 and 2.0.0. -/
theorem dbVersion_strict_total_order_witness :
    DbVersion.lt ⟨1, 0, 0⟩ ⟨1, 1, 0⟩ = true ∧ DbVersion.lt ⟨1, 1, 0⟩ ⟨2, 0, 0⟩ = true ∧
      DbVersion.lt ⟨1, 0, 0⟩ ⟨2, 0, 0⟩ = true :=
  ⟨by decide, by decide,
    (dbVersion_strict_total_order ⟨1, 0, 0⟩ ⟨1, 1, 0⟩ ⟨2, 0, 0⟩).2.2.1 (by decide) (by decide)⟩

/-! ## The script store -/

theorem QMap.contains_of_value {m : QMap} {v : DbVersion} {p : String}
    (h : m.value v = some p) : m.contains v = true := by
  unfold QMap.value at h
  unfold QMap.contains
  cases hf : m.find? (fun e => QMap.equiv e.1 v) with
  | none => rw [hf] at h; simp at h
  | some e =>
    rw [List.any_eq_true]
    exact ⟨e, List.mem_of_find?_eq_some hf,
      @List.find?_some _ (fun e : DbVersion × String => QMap.equiv e.1 v) e m hf⟩

theorem QMap.mem_insert {m : QMap} {k : DbVersion} {p : String} {e : DbVersion × String}
    (h : e ∈ m.insert k p) : e.1 = k ∨ e ∈ m := by
  induction m with
  | nil => simp [QMap.insert] at h; left; rw [h]
  | cons hd rest ih =>
    obtain ⟨k0, p0⟩ := hd
    unfold QMap.insert at h
    split_ifs at h with h1 h2
    · rcases List.mem_cons.1 h with h | h
      · left; rw [h]
      · right; exact h
    · rcases List.mem_cons.1 h with h | h
      · right; rw [h]; exact List.mem_cons_self _ _
      · rcases ih h with h | h
        · left; exact h
        · right; exact List.mem_cons_of_mem _ h
    · rcases List.mem_cons.1 h with h | h
      · left
        rw [h]
        have : QMap.equiv k0 k = true := by
          unfold QMap.equiv
          simp only [Bool.not_eq_true] at h1 h2
          simp [h1, h2]
        exact (QMap.equiv_iff k0 k).1 this
      · right; exact List.mem_cons_of_mem _ h

theorem QMap.insert_sorted {m : QMap} (k : DbVersion) (p : String) (h : m.Sorted) :
    (m.insert k p).Sorted := by
  induction m with
  | nil => simp [QMap.insert, QMap.Sorted]
  | cons hd rest ih =>
    obtain ⟨k0, p0⟩ := hd
    unfold QMap.Sorted at h ih ⊢
    rw [List.pairwise_cons] at h
    unfold QMap.insert
    split_ifs with h1 h2
    · refine List.Pairwise.cons ?_ (List.Pairwise.cons h.1 h.2)
      intro e he
      rcases List.mem_cons.1 he with he | he
      · rw [he]; exact h1
      · exact DbVersion.lt_trans h1 (h.1 e he)
    · refine List.Pairwise.cons ?_ (ih h.2)
      intro e he
      rcases QMap.mem_insert he with he | he
      · rw [he]; exact h2
      · exact h.1 e he
    · exact List.Pairwise.cons h.1 h.2

theorem addMigrationScript_sorted (fs : FileSystem) (t : DbMigrationTool) (p : String)
    (v : DbVersion) (h : t.m_migrationPath.Sorted) :
    (addMigrationScript fs t p v).2.m_migrationPath.Sorted := by
  unfold addMigrationScript
  split_ifs
  · exact h
  · exact QMap.insert_sorted v p h
  · exact h

theorem registerAll_sorted (fs : FileSystem) (calls : List (String × DbVersion)) :
    ∀ t : DbMigrationTool, t.m_migrationPath.Sorted → (registerAll fs t calls).m_migrationPath.Sorted := by
  induction calls with
  | nil => intro t h; exact h
  | cons c rest ih =>
    intro t h
    obtain ⟨p, v⟩ := c
    exact ih _ (addMigrationScript_sorted fs t p v h)

theorem QMap.Sorted.nodup_keys {m : QMap} (h : m.Sorted) : (m.map Prod.fst).Nodup := by
  unfold QMap.Sorted at h
  rw [List.Nodup, List.pairwise_map]
  refine h.imp ?_
  intro a b hab heq
  rw [heq, DbVersion.lt_irrefl] at hab
  exact Bool.false_ne_true hab

/-- C6: when version `v` is registered with path `p`, `addMigrationScript(p2, v)` throws
for every path `p2`, readable or not, and leaves the tool unchanged, so `v` is still mapped
to `p`; and after any sequence of registration calls on a fresh tool no two entries of the
store have the same version. -/
theorem addMigrationScript_duplicate_rejected (fs : FileSystem) (t : DbMigrationTool)
    (v : DbVersion) (p p2 : String) (hreg : t.m_migrationPath.value v = some p) :
    addMigrationScript fs t p2 v = (.thrown (.duplicateVersion p2), t) ∧
    (addMigrationScript fs t p2 v).2.m_migrationPath.value v = some p ∧
    ∀ calls : List (String × DbVersion),
      ((registerAll fs {} calls).m_migrationPath.map Prod.fst).Nodup := by
  have h1 : addMigrationScript fs t p2 v = (.thrown (.duplicateVersion p2), t) := by
    unfold addMigrationScript
    rw [if_pos (QMap.contains_of_value hreg)]
  refine ⟨h1, ?_, ?_⟩
  · rw [h1]; exact hreg
  · intro calls
    exact (registerAll_sorted fs calls {} List.Pairwise.nil).nodup_keys

/-- Instance of C6: 1.0.0 is registered with `m100.sql`; registering `m110.sql` or a
missing file under 1.0.0 is rejected. -/
theorem addMigrationScript_duplicate_rejected_witness :
    sampleTool.m_migrationPath.value ⟨1, 0, 0⟩ = some "m100.sql" ∧
    addMigrationScript sampleFiles sampleTool "m110.sql" ⟨1, 0, 0⟩
      = (.thrown (.duplicateVersion "m110.sql"), sampleTool) ∧
    addMigrationScript sampleFiles sampleTool "nofile.sql" ⟨1, 0, 0⟩
      = (.thrown (.duplicateVersion "nofile.sql"), sampleTool) :=
  ⟨by decide,
    (addMigrationScript_duplicate_rejected sampleFiles sampleTool ⟨1, 0, 0⟩ "m100.sql" "m110.sql"
      (by decide)).1,
    (addMigrationScript_duplicate_rejected sampleFiles sampleTool ⟨1, 0, 0⟩ "m100.sql" "nofile.sql"
      (by decide)).1⟩

/-! ## The script reader -/

theorem splitChars_no_sep (sep : Char) (l : List Char) :
    ∀ f ∈ splitChars sep l, sep ∉ f := by
  induction l with
  | nil => intro f hf; simp [splitChars] at hf; simp [hf]
  | cons c cs ih =>
    intro f hf
    unfold splitChars at hf
    split_ifs at hf with hc
    · rcases List.mem_cons.1 hf with h | h
      · simp [h]
      · exact ih f h
    · cases hs : splitChars sep cs with
      | nil => rw [hs] at hf; simp at hf; rw [hf]; simpa using Ne.symm hc
      | cons g gs =>
        rw [hs] at hf ih
        rcases List.mem_cons.1 hf with h | h
        · rw [h]
          intro hmem
          rcases List.mem_cons.1 hmem with h2 | h2
          · exact hc h2.symm
          · exact ih g (List.mem_cons_self _ _) h2
        · exact ih f (List.mem_cons_of_mem _ h)

theorem keepQueries_eq_filter (l : List (List Char)) :
    keepQueries l = l.filter (fun f => !(trimmed f).isEmpty) := by
  induction l with
  | nil => rfl
  | cons q qs ih =>
    unfold keepQueries
    by_cases h : (trimmed q).isEmpty = true
    · simp [h, ih]
    · simp [h, ih]

theorem trimmed_nonempty_has_nonspace {q : List Char} (h : (trimmed q).isEmpty = false) :
    ∃ c ∈ q, isSpace c = false := by
  by_contra hall
  have hall2 : ∀ x ∈ q, isSpace x = true := by
    intro x hx
    by_contra hx2
    exact hall ⟨x, hx, by simpa using hx2⟩
  have : q.dropWhile isSpace = [] := List.dropWhile_eq_nil_iff.2 hall2
  simp [trimmed, this] at h

/-- C7, as the code has it: for a readable script, `readQueries` returns, in their original
order, exactly the fragments of the split on `;` whose trimmed form is non-empty, each
fragment as it was split (not trimmed); trimming every returned statement gives the list
the specification describes. Every returned statement is non-empty, contains no `;` and
contains a character that is not whitespace. -/
theorem readQueries_keeps_untrimmed_fragments (fs : FileSystem) (path text : String)
    (hfile : fs path = .readable text) :
    readQueries fs path
      = some (((splitChars ';' text.data).filter (fun f => !(trimmed f).isEmpty)).map String.mk) ∧
    ∃ qs, readQueries fs path = some qs ∧
      qs.map (fun q => String.mk (trimmed q.data)) = specReadQueries text ∧
      ∀ q ∈ qs, q ≠ "" ∧ ';' ∉ q.data ∧ ∃ c ∈ q.data, isSpace c = false := by
  have hread : readQueries fs path
      = some (((splitChars ';' text.data).filter (fun f => !(trimmed f).isEmpty)).map String.mk) := by
    simp only [readQueries, hfile, keepQueries_eq_filter]
  refine ⟨hread, _, hread, ?_, ?_⟩
  · unfold specReadQueries
    rw [List.filter_map, List.map_map, List.map_map]
    rfl
  · intro q hq
    obtain ⟨f, hf, rfl⟩ := List.mem_map.1 hq
    obtain ⟨hmem, hne⟩ := List.mem_filter.1 hf
    have hne2 : (trimmed f).isEmpty = false := by simpa using hne
    obtain ⟨c, hc, hs⟩ := trimmed_nonempty_has_nonspace hne2
    refine ⟨?_, splitChars_no_sep ';' _ f hmem, c, hc, hs⟩
    intro h0
    have : f = [] := by
      have := congrArg String.data h0
      simpa using this
    rw [this] at hc
    simp at hc

/-- Instance of C7 on the script `m100.sql`, whose text is ` A1; A2 ;`. -/
theorem readQueries_keeps_untrimmed_fragments_witness :
    sampleFiles "m100.sql" = .readable " A1; A2 ;" ∧
    readQueries sampleFiles "m100.sql" = some [" A1", " A2 "] :=
  ⟨by decide,
    (readQueries_keeps_untrimmed_fragments sampleFiles "m100.sql" " A1; A2 ;" (by decide)).1.trans
      (by decide)⟩

/-- C7 fails as stated: on the text ` A1; A2 ;` the reader returns ` A1` and ` A2 ` with
their surrounding blanks, not the trimmed statements `A1` and `A2` of the specification. -/
theorem readQueries_not_trimmed_counterexample :
    readQueries sampleFiles "m100.sql" = some [" A1", " A2 "] ∧
    specReadQueries " A1; A2 ;" = ["A1", "A2"] ∧
    readQueries sampleFiles "m100.sql" ≠ some (specReadQueries " A1; A2 ;") := by
  decide

/-! ## The first step of `update()` -/

/-- C9: on a database whose table catalog is non-empty and lacks `dbMetaInfo`, `update()`
throws and changes nothing: the tool (first-init flag included), the content, the
transaction state and the log of issued statements are as before, whatever is registered. -/
theorem update_missing_metadata_table {σ : Type} (fs : FileSystem) (drv : Driver σ)
    (t : DbMigrationTool) (c : QSqlDatabase σ)
    (hne : c.data.tables ≠ []) (hmiss : DB_INFO_TABLE ∉ c.data.tables) :
    update fs drv t c = (.thrown .noMetaInfoTable, t, c) := by
  have h1 : c.data.tables.isEmpty = false := by
    cases htab : c.data.tables with
    | nil => exact absurd htab hne
    | cons a l => rfl
  simp [update, updatePrelude, h1, hmiss]

/-- Instance of C9: a database with the single table `t`. -/
theorem update_missing_metadata_table_witness :
    update sampleFiles journalDriver sampleTool
        { data := { tables := ["t"], rows := [], user := [] }, snapshot := none, log := [] }
      = (.thrown .noMetaInfoTable, sampleTool,
        { data := { tables := ["t"], rows := [], user := [] }, snapshot := none, log := [] }) :=
  update_missing_metadata_table sampleFiles journalDriver sampleTool _ (by decide) (by decide)

/-- On an empty read-only database the bootstrap fails at its first statement:
`addInfoTable` returns `false`, `addMetaInfo` throws with its transaction still open,
and nothing is written. -/
theorem update_readOnly_bootstrap_throws :
    update sampleFiles readOnlyDriver sampleTool emptyDb
      = (.thrown .addTableFailed, { sampleTool with m_firstInit := true },
        { data := emptyDb.data, snapshot := some emptyDb.data,
          log := [.createInfoTable false] }) := by
  decide

theorem addMetaInfo_empty {σ : Type} {drv : Driver σ} {t : DbMigrationTool}
    {c : QSqlDatabase σ} (hempty : c.data.tables = [])
    (hboot : (addMetaInfo drv t c).1 = .ret ()) :
    addMetaInfo drv t c =
      (.ret (), { t with m_firstInit := true },
        { data := { tables := [DB_INFO_TABLE],
                    rows := [(DB_VERSION_MAJOR, some 0), (DB_VERSION_MINOR, some 0),
                             (DB_VERSION_UPDATE, some 0)],
                    user := c.data.user },
          snapshot := none,
          log := c.log ++ [.createInfoTable true, .insertRow DB_VERSION_MAJOR true,
                           .insertRow DB_VERSION_MINOR true, .insertRow DB_VERSION_UPDATE true] }) := by
  obtain ⟨⟨tables, rows, user⟩, snap, log⟩ := c
  simp only at hempty
  subst hempty
  by_cases h1 : drv.accepts (DbData.mk [] rows user) .createTable = true
  · by_cases h2 : drv.accepts (DbData.mk [DB_INFO_TABLE] [] user) (.insertRow DB_VERSION_MAJOR) = true
    · by_cases h3 : drv.accepts (DbData.mk [DB_INFO_TABLE] [(DB_VERSION_MAJOR, some 0)] user)
          (.insertRow DB_VERSION_MINOR) = true
      · by_cases h4 : drv.accepts (DbData.mk [DB_INFO_TABLE]
            [(DB_VERSION_MAJOR, some 0), (DB_VERSION_MINOR, some 0)] user)
            (.insertRow DB_VERSION_UPDATE) = true
        · cases snap <;>
            simp [addMetaInfo, addInfoTable, addVersionRows, addVersionRow,
              QSqlDatabase.transaction, QSqlDatabase.commit, QSqlDatabase.record, h1, h2, h3, h4]
        · cases snap <;>
            simp [addMetaInfo, addInfoTable, addVersionRows, addVersionRow,
              QSqlDatabase.transaction, QSqlDatabase.commit, QSqlDatabase.record, h1, h2, h3, h4]
              at hboot
      · cases snap <;>
          simp [addMetaInfo, addInfoTable, addVersionRows, addVersionRow,
            QSqlDatabase.transaction, QSqlDatabase.commit, QSqlDatabase.record, h1, h2, h3]
            at hboot
    · cases snap <;>
        simp [addMetaInfo, addInfoTable, addVersionRows, addVersionRow,
          QSqlDatabase.transaction, QSqlDatabase.commit, QSqlDatabase.record, h1, h2] at hboot
  · cases snap <;>
      simp [addMetaInfo, addInfoTable, addVersionRows, addVersionRow,
        QSqlDatabase.transaction, QSqlDatabase.commit, QSqlDatabase.record, h1] at hboot

/-- C2, as the code has it: no baseline is registered (the path is empty and names no
file) and the bootstrap statements all succeed on the empty database (`addMetaInfo`
returns). Then `update()` commits the bootstrap of the metadata table, `runBaselineScripts`
returns `false` having executed no statement, and `update()` throws at the baseline step
without reaching the migration scripts. -/
theorem update_unregistered_baseline_fails {σ : Type} (fs : FileSystem) (drv : Driver σ)
    (t : DbMigrationTool) (c : QSqlDatabase σ)
    (hpath : t.m_baselinePath = "") (hfs : fs "" = .absent) (hempty : c.data.tables = [])
    (hboot : (addMetaInfo drv t c).1 = .ret ()) :
    (∀ c1 : QSqlDatabase σ,
      runBaselineScripts fs drv { t with m_firstInit := true } c1 = (false, c1)) ∧
    update fs drv t c =
      (.thrown .baselineFailed, { t with m_firstInit := true },
        { data := { tables := [DB_INFO_TABLE],
                    rows := [(DB_VERSION_MAJOR, some 0), (DB_VERSION_MINOR, some 0),
                             (DB_VERSION_UPDATE, some 0)],
                    user := c.data.user },
          snapshot := none,
          log := c.log ++ [.createInfoTable true, .insertRow DB_VERSION_MAJOR true,
                           .insertRow DB_VERSION_MINOR true, .insertRow DB_VERSION_UPDATE true] }) := by
  have hb : ∀ c1 : QSqlDatabase σ,
      runBaselineScripts fs drv { t with m_firstInit := true } c1 = (false, c1) := by
    intro c1
    simp [runBaselineScripts, fileExists, hpath, hfs]
  refine ⟨hb, ?_⟩
  have hm := addMetaInfo_empty hempty hboot
  have he : c.data.tables.isEmpty = true := by rw [hempty]; rfl
  simp only [update, updatePrelude, he, if_true, hm, hb]

/-- Instance of the amended C2 on the sample tool, which has no baseline. -/
theorem update_unregistered_baseline_fails_witness :
    (update sampleFiles journalDriver sampleTool emptyDb).1 = .thrown .baselineFailed ∧
    (update sampleFiles journalDriver sampleTool emptyDb).2.2.log
      = [.createInfoTable true, .insertRow "v_major" true, .insertRow "v_minor" true,
         .insertRow "v_update" true] :=
  ⟨congrArg Prod.fst
      (update_unregistered_baseline_fails sampleFiles journalDriver sampleTool emptyDb
        rfl (by decide) rfl (by decide)).2,
    by decide⟩

/-- C2 fails as stated: with no baseline registered and every bootstrap statement
succeeding on the empty database, `runBaselineScripts` returns `false` and `update()`
throws at the baseline step, before any migration script is opened. -/
theorem update_unregistered_baseline_counterexample :
    sampleTool.m_baselinePath = "" ∧ emptyDb.data.tables = [] ∧
    (addMetaInfo journalDriver sampleTool emptyDb).1 = .ret () ∧
    (addMetaInfo journalDriver sampleTool emptyDb).2.2.log
      = [.createInfoTable true, .insertRow "v_major" true, .insertRow "v_minor" true,
         .insertRow "v_update" true] ∧
    (runBaselineScripts sampleFiles journalDriver (addMetaInfo journalDriver sampleTool emptyDb).2.1
      (addMetaInfo journalDriver sampleTool emptyDb).2.2).1 = false ∧
    (update sampleFiles journalDriver sampleTool emptyDb).1 = .thrown .baselineFailed ∧
    appliedVersions (update sampleFiles journalDriver sampleTool emptyDb).2.2.log = [] := by
  decide

/-! ## Transactions and the statement loop -/

section Loops

variable {σ : Type}

theorem runStatements_append_fail (drv : Driver σ) (origin : Option DbVersion)
    (qs1 : List String) (q : String) (qs2 : List String) :
    ∀ (c : QSqlDatabase σ) (d d2 : DbData σ) (sn sn2 : Option (DbData σ)),
      execAll drv c.data c.snapshot qs1 = some (d, sn) → drv.exec d sn q = (false, d2, sn2) →
      runStatements drv origin (qs1 ++ q :: qs2) c
        = (false, QSqlDatabase.rollback
            { data := d2, snapshot := sn2,
              log := c.log ++ qs1.map (fun s => Event.statement origin s true)
                ++ [Event.statement origin q false] }) := by
  induction qs1 with
  | nil =>
    intro c d d2 sn sn2 hd hq
    simp only [execAll, Option.some.injEq, Prod.mk.injEq] at hd
    obtain ⟨h1, h2⟩ := hd
    subst h1; subst h2
    simp [runStatements, runScript, hq, QSqlDatabase.record]
  | cons s rest ih =>
    intro c d d2 sn sn2 hd hq
    unfold execAll at hd
    rcases hs : drv.exec c.data c.snapshot s with ⟨ok, d1, sn1⟩
    rw [hs] at hd
    cases ok with
    | false => simp at hd
    | true =>
      simp only at hd
      have := ih (({ c with data := d1, snapshot := sn1 } : QSqlDatabase σ).record
        (.statement origin s true)) d d2 sn sn2 (by simpa [QSqlDatabase.record] using hd) hq
      have h2 : runStatements drv origin (s :: (rest ++ q :: qs2)) c
          = runStatements drv origin (rest ++ q :: qs2)
              (({ c with data := d1, snapshot := sn1 } : QSqlDatabase σ).record
                (.statement origin s true)) := by
        simp only [runStatements, runScript, hs]
      rw [List.cons_append, h2, this]
      simp [QSqlDatabase.record, List.append_assoc]

theorem migrationLoop_append (fs : FileSystem) (drv : Driver σ) (done rest : QMap) :
    ∀ c c2 : QSqlDatabase σ, migrationLoop fs drv done c = (.ret true, c2) →
      migrationLoop fs drv (done ++ rest) c = migrationLoop fs drv rest c2 := by
  induction done with
  | nil =>
    intro c c2 h
    simp only [migrationLoop, Prod.mk.injEq, true_and] at h
    subst h; rfl
  | cons e tl ih =>
    intro c c2 h
    obtain ⟨v, path⟩ := e
    simp only [List.cons_append, migrationLoop] at h ⊢
    cases hr : readQueries fs path with
    | none => rw [hr] at h; simp at h
    | some queries =>
      rw [hr] at h
      simp only at h ⊢
      rcases hs : runStatements drv (some v) queries
        (c.transaction.record (.beginMigration v path)) with ⟨b, c1⟩
      rw [hs] at h
      cases b with
      | false => simp at h
      | true =>
        simp only at h ⊢
        rcases hv : setVersion drv v c1 with ⟨r, c3⟩
        rw [hv] at h
        cases r with
        | ret b2 =>
          cases b2 with
          | false => simp at h
          | true => simp only at h ⊢; exact ih _ _ h
        | thrown e => simp at h
        | terminated => simp at h

theorem migrationLoop_snapshot (fs : FileSystem) (drv : Driver σ) (done : QMap) :
    ∀ c c2 : QSqlDatabase σ, migrationLoop fs drv done c = (.ret true, c2) →
      c.snapshot = none → c2.snapshot = none := by
  induction done with
  | nil =>
    intro c c2 h hc
    simp only [migrationLoop, Prod.mk.injEq, true_and] at h
    subst h; exact hc
  | cons e tl ih =>
    intro c c2 h _
    obtain ⟨v, path⟩ := e
    simp only [migrationLoop] at h
    cases hr : readQueries fs path with
    | none => rw [hr] at h; simp at h
    | some queries =>
      rw [hr] at h
      simp only at h
      rcases hs : runStatements drv (some v) queries
        (c.transaction.record (.beginMigration v path)) with ⟨b, c1⟩
      rw [hs] at h
      cases b with
      | false => simp at h
      | true =>
        simp only at h
        rcases hv : setVersion drv v c1 with ⟨r, c3⟩
        rw [hv] at h
        cases r with
        | ret b2 =>
          cases b2 with
          | false => simp at h
          | true => simp only at h; exact ih _ _ h rfl
        | thrown e => simp at h
        | terminated => simp at h

end Loops

/-! ## Atomicity of one migration script -/

section Atomicity

variable {σ : Type}

theorem addMetaInfo_ret {drv : Driver σ} {t t1 : DbMigrationTool} {c c1 : QSqlDatabase σ}
    (h : addMetaInfo drv t c = (.ret (), t1, c1)) :
    t1 = { t with m_firstInit := true } ∧ c1.snapshot = none := by
  unfold addMetaInfo at h
  simp only at h
  split at h
  · simp at h
  · split at h
    · simp only [Prod.mk.injEq, true_and] at h
      obtain ⟨h1, h2⟩ := h
      exact ⟨h1.symm, by rw [← h2]; rfl⟩
    · simp at h
    · simp at h
    · simp at h

theorem runBaselineScripts_snapshot {fs : FileSystem} {drv : Driver σ} {t : DbMigrationTool}
    {c c1 : QSqlDatabase σ} (h : runBaselineScripts fs drv t c = (true, c1))
    (hc : c.snapshot = none) : c1.snapshot = none := by
  unfold runBaselineScripts at h
  split_ifs at h
  · simp at h
  split at h
  · split at h
    · simp only [Prod.mk.injEq, true_and] at h
      rw [← h]; rfl
    · simp at h
  · simp only [Prod.mk.injEq, true_and] at h
    rw [← h]; exact hc

theorem updatePrelude_snapshot {fs : FileSystem} {drv : Driver σ} {t t1 : DbMigrationTool}
    {c c1 : QSqlDatabase σ} (h : updatePrelude fs drv t c = (.ret (), t1, c1))
    (hc : c.snapshot = none) : c1.snapshot = none := by
  unfold updatePrelude at h
  split_ifs at h
  · rcases hm : addMetaInfo drv t c with ⟨r, t2, c2⟩
    rw [hm] at h
    cases r with
    | ret u =>
      simp only at h
      rcases hb : runBaselineScripts fs drv t2 c2 with ⟨b, c3⟩
      rw [hb] at h
      cases b with
      | false => simp at h
      | true =>
        simp only [Prod.mk.injEq, true_and] at h
        rw [← h.2]
        exact runBaselineScripts_snapshot hb (addMetaInfo_ret hm).2
    | thrown e => simp at h
    | terminated => simp at h
  · simp at h
  · simp only [Prod.mk.injEq, true_and] at h
    rw [← h.2]; exact hc

/-- C3, as the code has it: take a run of `update()` entered with no transaction open,
whose first step succeeds, and a pending entry `(v, path)` of the migration loop; let `c2`
be the connection after the entries before it have been applied and committed. If the
script's statements `qs1` succeed, the next statement `q` fails, and these statements
leave the transaction of the script open (none of them commits it, rolls it back or
starts another), then `update()` throws, the content is again that of `c2` (tables,
version rows and all else) with no transaction open, and the log ends with the failed
statement: no later statement and no later script is run. -/
theorem migration_script_atomic (fs : FileSystem) (drv : Driver σ)
    (t t1 : DbMigrationTool) (c c1 c2 : QSqlDatabase σ) (version v : DbVersion) (path : String)
    (done later : QMap) (qs1 : List String) (q : String) (qs2 : List String) (d d2 : DbData σ)
    (hopen : c.snapshot = none)
    (hpre : updatePrelude fs drv t c = (.ret (), t1, c1))
    (hver : getVersion c1 = .ok version)
    (hiter : startIter t1 version = done ++ (v, path) :: later)
    (hdone : migrationLoop fs drv done c1 = (.ret true, c2))
    (hread : readQueries fs path = some (qs1 ++ q :: qs2))
    (hok : execAll drv c2.data (some c2.data) qs1 = some (d, some c2.data))
    (hfail : drv.exec d (some c2.data) q = (false, d2, some c2.data)) :
    runMigrationScripts fs drv t1 c1 =
      (.ret false,
        { data := c2.data, snapshot := none,
          log := c2.log ++ [Event.beginMigration v path]
            ++ qs1.map (fun s => Event.statement (some v) s true)
            ++ [Event.statement (some v) q false] }) ∧
    update fs drv t c =
      (.thrown .migrationFailed, t1,
        { data := c2.data, snapshot := none,
          log := c2.log ++ [Event.beginMigration v path]
            ++ qs1.map (fun s => Event.statement (some v) s true)
            ++ [Event.statement (some v) q false] }) := by
  have hs2 : c2.snapshot = none :=
    migrationLoop_snapshot fs drv done c1 c2 hdone (updatePrelude_snapshot hpre hopen)
  have hstmts := runStatements_append_fail drv (some v) qs1 q qs2
    (c2.transaction.record (.beginMigration v path)) d d2 (some c2.data) (some c2.data)
    (by simpa [QSqlDatabase.record, QSqlDatabase.transaction, hs2] using hok) hfail
  have hloop : migrationLoop fs drv (done ++ (v, path) :: later) c1
      = (.ret false,
        { data := c2.data, snapshot := none,
          log := c2.log ++ [Event.beginMigration v path]
            ++ qs1.map (fun s => Event.statement (some v) s true)
            ++ [Event.statement (some v) q false] }) := by
    rw [migrationLoop_append fs drv done _ c1 c2 hdone]
    simp only [migrationLoop, hread, hstmts]
    simp [QSqlDatabase.rollback, QSqlDatabase.record, QSqlDatabase.transaction, hs2]
  have hrun : runMigrationScripts fs drv t1 c1
      = (.ret false,
        { data := c2.data, snapshot := none,
          log := c2.log ++ [Event.beginMigration v path]
            ++ qs1.map (fun s => Event.statement (some v) s true)
            ++ [Event.statement (some v) q false] }) := by
    unfold runMigrationScripts
    simp only [hver, hiter, hloop]
    simp
  refine ⟨hrun, ?_⟩
  unfold update
  simp only [hpre, hrun]

end Atomicity

/-- Instance of the amended C3: the database is at 1.0.0; 1.1.0 is applied and committed;
the script of 2.0.0 runs `E1`, then `FAIL` fails. The content is that left by 1.1.0
(version rows 1, 1, 0 and the journal holding `B1` only) and `E2` is never run. -/
theorem migration_script_atomic_witness :
    (update sampleFiles journalDriver badTool (dbAt 1 0 0)).1 = .thrown .migrationFailed ∧
    (update sampleFiles journalDriver badTool (dbAt 1 0 0)).2.2.data
      = { tables := ["dbMetaInfo", "t"],
          rows := [("v_major", some 1), ("v_minor", some 1), ("v_update", some 0)],
          user := ["B1"] } ∧
    (update sampleFiles journalDriver badTool (dbAt 1 0 0)).2.2.snapshot = none :=
  (fun h => ⟨(congrArg (fun r => r.1) h).trans rfl,
      (congrArg (fun r => r.2.2.data) h).trans (by decide),
      (congrArg (fun r => r.2.2.snapshot) h).trans rfl⟩)
    (migration_script_atomic sampleFiles journalDriver badTool badTool (dbAt 1 0 0) (dbAt 1 0 0)
      (migrationLoop sampleFiles journalDriver [(⟨1, 1, 0⟩, "m110.sql")] (dbAt 1 0 0)).2
      ⟨1, 0, 0⟩ ⟨2, 0, 0⟩ "bad.sql" [(⟨1, 1, 0⟩, "m110.sql")] [] ["E1"] "FAIL" ["E2"]
      { tables := ["dbMetaInfo", "t"],
        rows := [("v_major", some 1), ("v_minor", some 1), ("v_update", some 0)],
        user := ["B1", "E1"] }
      { tables := ["dbMetaInfo", "t"],
        rows := [("v_major", some 1), ("v_minor", some 1), ("v_update", some 0)],
        user := ["B1", "E1"] }
      rfl (by decide) (by decide) (by decide) (by decide) (by decide) (by decide) (by decide)).2

/-- C3 fails as stated. The database is at 1.0.0 and 1.1.0 is applied and committed, leaving
the journal `B1`. The script of 2.0.0 is `E1;COMMIT;FAIL;E2`: `E1` and `COMMIT` succeed
and `FAIL` fails, `update()` throws and `E2` is not run, but the `COMMIT` of the script has
ended the transaction, the rollback finds none, and `E1` stays in the content: the state
is not the one committed by the previous script. -/
theorem migration_script_atomic_counterexample :
    (migrationLoop sampleFiles journalDriver [(⟨1, 1, 0⟩, "m110.sql")] (dbAt 1 0 0)).1
      = .ret true ∧
    (migrationLoop sampleFiles journalDriver [(⟨1, 1, 0⟩, "m110.sql")] (dbAt 1 0 0)).2.data.user
      = ["B1"] ∧
    readQueries sampleFiles "commit.sql" = some ["E1", "COMMIT", "FAIL", "E2"] ∧
    (update sampleFiles journalDriver commitTool (dbAt 1 0 0)).1 = .thrown .migrationFailed ∧
    migrationStatements (update sampleFiles journalDriver commitTool (dbAt 1 0 0)).2.2.log
      = [(⟨1, 1, 0⟩, "B1"), (⟨2, 0, 0⟩, "E1"), (⟨2, 0, 0⟩, "COMMIT"), (⟨2, 0, 0⟩, "FAIL")] ∧
    (update sampleFiles journalDriver commitTool (dbAt 1 0 0)).2.2.data.user = ["B1", "E1"] ∧
    (update sampleFiles journalDriver commitTool (dbAt 1 0 0)).2.2.data
      ≠ (migrationLoop sampleFiles journalDriver [(⟨1, 1, 0⟩, "m110.sql")] (dbAt 1 0 0)).2.data := by
  decide

/-! ## What a run writes to the log -/

section Log

variable {σ : Type}

@[simp] theorem appliedScripts_append (l1 l2 : List Event) :
    appliedScripts (l1 ++ l2) = appliedScripts l1 ++ appliedScripts l2 := by
  induction l1 with
  | nil => rfl
  | cons e es ih => cases e <;> simp [appliedScripts, ih]

@[simp] theorem statementVersions_append (l1 l2 : List Event) :
    statementVersions (l1 ++ l2) = statementVersions l1 ++ statementVersions l2 := by
  induction l1 with
  | nil => rfl
  | cons e es ih =>
    cases e with
    | statement o s b => cases o <;> simp [statementVersions, ih]
    | _ => simp [statementVersions, ih]

@[simp] theorem transaction_log (c : QSqlDatabase σ) : c.transaction.log = c.log := by
  unfold QSqlDatabase.transaction; split <;> rfl

@[simp] theorem rollback_log (c : QSqlDatabase σ) : c.rollback.log = c.log := by
  unfold QSqlDatabase.rollback; split <;> rfl

@[simp] theorem commit_log (c : QSqlDatabase σ) : c.commit.log = c.log := rfl

@[simp] theorem record_log (c : QSqlDatabase σ) (e : Event) : (c.record e).log = c.log ++ [e] := rfl

theorem setVersionField_log (drv : Driver σ) (key : String) (x : Int) (c : QSqlDatabase σ) :
    appliedScripts (setVersionField drv key x c).2.log = appliedScripts c.log ∧
    statementVersions (setVersionField drv key x c).2.log = statementVersions c.log := by
  unfold setVersionField
  split_ifs <;> simp [appliedScripts, statementVersions]

theorem setVersion_log (drv : Driver σ) (v : DbVersion) (c : QSqlDatabase σ) :
    appliedScripts (setVersion drv v c).2.log = appliedScripts c.log ∧
    statementVersions (setVersion drv v c).2.log = statementVersions c.log := by
  have h1 := setVersionField_log drv DB_VERSION_MAJOR (toInt v.major) c.transaction
  rcases e1 : setVersionField drv DB_VERSION_MAJOR (toInt v.major) c.transaction with ⟨b1, c1⟩
  have h2 := setVersionField_log drv DB_VERSION_MINOR (toInt v.minor) c1
  rcases e2 : setVersionField drv DB_VERSION_MINOR (toInt v.minor) c1 with ⟨b2, c2⟩
  have h3 := setVersionField_log drv DB_VERSION_UPDATE (toInt v.update) c2
  rcases e3 : setVersionField drv DB_VERSION_UPDATE (toInt v.update) c2 with ⟨b3, c3⟩
  rw [e1] at h1; rw [e2] at h2; rw [e3] at h3
  simp only [transaction_log] at h1 h2 h3
  unfold setVersion
  simp only [e1]
  cases b1 with
  | false => exact h1
  | true =>
    simp only [e2]
    cases b2 with
    | false => exact ⟨h2.1.trans h1.1, h2.2.trans h1.2⟩
    | true =>
      simp only [e3]
      cases b3 with
      | false => exact ⟨h3.1.trans (h2.1.trans h1.1), h3.2.trans (h2.2.trans h1.2)⟩
      | true => exact ⟨h3.1.trans (h2.1.trans h1.1), h3.2.trans (h2.2.trans h1.2)⟩

theorem addVersionRow_log (drv : Driver σ) (key : String) (c : QSqlDatabase σ) :
    appliedScripts (addVersionRow drv key c).2.log = appliedScripts c.log ∧
    statementVersions (addVersionRow drv key c).2.log = statementVersions c.log := by
  unfold addVersionRow
  split_ifs <;> simp [appliedScripts, statementVersions]

theorem addVersionRows_log (drv : Driver σ) (c : QSqlDatabase σ) :
    appliedScripts (addVersionRows drv c).2.log = appliedScripts c.log ∧
    statementVersions (addVersionRows drv c).2.log = statementVersions c.log := by
  have h1 := addVersionRow_log drv DB_VERSION_MAJOR c.transaction
  rcases e1 : addVersionRow drv DB_VERSION_MAJOR c.transaction with ⟨b1, c1⟩
  have h2 := addVersionRow_log drv DB_VERSION_MINOR c1
  rcases e2 : addVersionRow drv DB_VERSION_MINOR c1 with ⟨b2, c2⟩
  have h3 := addVersionRow_log drv DB_VERSION_UPDATE c2
  rcases e3 : addVersionRow drv DB_VERSION_UPDATE c2 with ⟨b3, c3⟩
  rw [e1] at h1; rw [e2] at h2; rw [e3] at h3
  simp only [transaction_log] at h1 h2 h3
  unfold addVersionRows
  simp only [e1]
  cases b1 with
  | false => exact h1
  | true =>
    simp only [e2]
    cases b2 with
    | false => exact ⟨h2.1.trans h1.1, h2.2.trans h1.2⟩
    | true =>
      simp only [e3]
      cases b3 with
      | false => exact ⟨h3.1.trans (h2.1.trans h1.1), h3.2.trans (h2.2.trans h1.2)⟩
      | true => exact ⟨h3.1.trans (h2.1.trans h1.1), h3.2.trans (h2.2.trans h1.2)⟩

theorem addMetaInfo_log (drv : Driver σ) (t : DbMigrationTool) (c : QSqlDatabase σ) :
    appliedScripts (addMetaInfo drv t c).2.2.log = appliedScripts c.log ∧
    statementVersions (addMetaInfo drv t c).2.2.log = statementVersions c.log := by
  have h1 : appliedScripts (addInfoTable drv c.transaction).2.log = appliedScripts c.log ∧
      statementVersions (addInfoTable drv c.transaction).2.log = statementVersions c.log := by
    unfold addInfoTable
    split_ifs <;> simp [appliedScripts, statementVersions]
  rcases e1 : addInfoTable drv c.transaction with ⟨b1, c1⟩
  have h2 := addVersionRows_log drv c1
  rcases e2 : addVersionRows drv c1 with ⟨r, c2⟩
  rw [e1] at h1; rw [e2] at h2
  unfold addMetaInfo
  simp only [e1]
  cases b1 with
  | false => exact h1
  | true =>
    simp only [e2]
    cases r with
    | ret b =>
      cases b
      · exact ⟨h2.1.trans h1.1, h2.2.trans h1.2⟩
      · exact ⟨h2.1.trans h1.1, h2.2.trans h1.2⟩
    | thrown e => exact ⟨h2.1.trans h1.1, h2.2.trans h1.2⟩
    | terminated => exact ⟨h2.1.trans h1.1, h2.2.trans h1.2⟩

theorem runStatements_log (drv : Driver σ) (origin : Option DbVersion) (qs : List String) :
    ∀ c : QSqlDatabase σ,
      appliedScripts (runStatements drv origin qs c).2.log = appliedScripts c.log ∧
      ∃ svs, statementVersions (runStatements drv origin qs c).2.log
          = statementVersions c.log ++ svs ∧ ∀ x ∈ svs, origin = some x := by
  induction qs with
  | nil => intro c; exact ⟨rfl, [], by simp [runStatements], by simp⟩
  | cons q rest ih =>
    intro c
    have hstep : ∀ b : Bool,
        appliedScripts (c.log ++ [Event.statement origin q b]) = appliedScripts c.log ∧
        ∃ svs, statementVersions (c.log ++ [Event.statement origin q b])
          = statementVersions c.log ++ svs ∧ ∀ x ∈ svs, origin = some x := by
      intro b
      refine ⟨by simp [appliedScripts], ?_⟩
      cases origin with
      | none => exact ⟨[], by simp [statementVersions], by simp⟩
      | some v => exact ⟨[v], by simp [statementVersions], by simp⟩
    unfold runStatements runScript
    rcases hq : drv.exec c.data c.snapshot q with ⟨ok, d1, sn1⟩
    cases ok with
    | false =>
      simp only [rollback_log, record_log]
      exact hstep false
    | true =>
      simp only
      obtain ⟨ha, svs, hs, hall⟩ :=
        ih (({ c with data := d1, snapshot := sn1 } : QSqlDatabase σ).record
          (.statement origin q true))
      obtain ⟨ha0, svs0, hs0, hall0⟩ := hstep true
      simp only [record_log] at ha hs
      refine ⟨ha.trans ha0, svs0 ++ svs, ?_, ?_⟩
      · rw [hs, hs0, List.append_assoc]
      · intro x hx
        rcases List.mem_append.1 hx with h | h
        · exact hall0 x h
        · exact hall x h

theorem runBaselineScripts_log (fs : FileSystem) (drv : Driver σ) (t : DbMigrationTool)
    (c : QSqlDatabase σ) :
    appliedScripts (runBaselineScripts fs drv t c).2.log = appliedScripts c.log ∧
    statementVersions (runBaselineScripts fs drv t c).2.log = statementVersions c.log := by
  unfold runBaselineScripts
  split_ifs
  · exact ⟨rfl, rfl⟩
  · cases hr : readQueries fs t.m_baselinePath with
    | none => exact ⟨rfl, rfl⟩
    | some queries =>
      simp only
      obtain ⟨ha, svs, hs, hall⟩ := runStatements_log drv none queries c.transaction
      have hnil : svs = [] := by
        cases svs with
        | nil => rfl
        | cons x xs => exact absurd (hall x (List.mem_cons_self _ _)) (by simp)
      subst hnil
      simp only [transaction_log, List.append_nil] at ha hs
      rcases e : runStatements drv none queries c.transaction with ⟨b, c1⟩
      rw [e] at ha hs
      cases b
      · exact ⟨ha, hs⟩
      · exact ⟨ha, hs⟩

theorem updatePrelude_log (fs : FileSystem) (drv : Driver σ) (t : DbMigrationTool)
    (c : QSqlDatabase σ) :
    appliedScripts (updatePrelude fs drv t c).2.2.log = appliedScripts c.log ∧
    statementVersions (updatePrelude fs drv t c).2.2.log = statementVersions c.log := by
  unfold updatePrelude
  split_ifs
  · have h1 := addMetaInfo_log drv t c
    rcases e1 : addMetaInfo drv t c with ⟨r, t1, c1⟩
    rw [e1] at h1
    cases r with
    | ret u =>
      simp only
      have h2 := runBaselineScripts_log fs drv t1 c1
      rcases e2 : runBaselineScripts fs drv t1 c1 with ⟨b, c2⟩
      rw [e2] at h2
      cases b
      · exact ⟨h2.1.trans h1.1, h2.2.trans h1.2⟩
      · exact ⟨h2.1.trans h1.1, h2.2.trans h1.2⟩
    | thrown e => exact h1
    | terminated => exact h1
  · exact ⟨rfl, rfl⟩
  · exact ⟨rfl, rfl⟩

end Log

/-! ## The migration loop: which scripts run, in which order -/

section Order

variable {σ : Type}

theorem migrationLoop_log (fs : FileSystem) (drv : Driver σ) (iter : QMap) :
    ∀ c : QSqlDatabase σ,
      (∃ k, appliedScripts (migrationLoop fs drv iter c).2.log
          = appliedScripts c.log ++ iter.take k) ∧
      ((migrationLoop fs drv iter c).1 = .ret true →
        appliedScripts (migrationLoop fs drv iter c).2.log = appliedScripts c.log ++ iter) ∧
      ∃ svs, statementVersions (migrationLoop fs drv iter c).2.log
          = statementVersions c.log ++ svs ∧
        (∀ x ∈ svs, x ∈ iter.map Prod.fst) ∧
        (iter.Sorted → List.Pairwise (fun a b => DbVersion.lt b a = false) svs) := by
  induction iter with
  | nil =>
    intro c
    exact ⟨⟨0, by simp [migrationLoop]⟩, by simp [migrationLoop],
      [], by simp [migrationLoop], by simp, fun _ => List.Pairwise.nil⟩
  | cons e rest ih =>
    intro c
    obtain ⟨v, path⟩ := e
    unfold migrationLoop
    cases hr : readQueries fs path with
    | none =>
      exact ⟨⟨0, by simp⟩, by simp, [], by simp, by simp, fun _ => List.Pairwise.nil⟩
    | some queries =>
      simp only
      obtain ⟨ha1, svs1, hs1, hall1⟩ := runStatements_log drv (some v) queries
        (c.transaction.record (.beginMigration v path))
      simp only [record_log, transaction_log, appliedScripts_append,
        statementVersions_append] at ha1 hs1
      have hb1 : appliedScripts [Event.beginMigration v path] = [(v, path)] := rfl
      have hb2 : statementVersions [Event.beginMigration v path] = [] := rfl
      rw [hb1] at ha1
      rw [hb2, List.append_nil] at hs1
      have hsv1 : ∀ x ∈ svs1, x = v := fun x hx => (Option.some.inj (hall1 x hx)).symm
      have hpw1 : List.Pairwise (fun a b => DbVersion.lt b a = false) svs1 := by
        apply List.pairwise_of_forall_mem_list
        intro a ha b hb
        rw [hsv1 a ha, hsv1 b hb]
        exact DbVersion.lt_irrefl v
      have hstop : ∀ l : List Event, appliedScripts l = appliedScripts c.log ++ [(v, path)] →
          statementVersions l = statementVersions c.log ++ svs1 →
          (∃ k, appliedScripts l = appliedScripts c.log ++ ((v, path) :: rest).take k) ∧
          ∃ svs, statementVersions l = statementVersions c.log ++ svs ∧
            (∀ x ∈ svs, x ∈ ((v, path) :: rest).map Prod.fst) ∧
            (QMap.Sorted ((v, path) :: rest) →
              List.Pairwise (fun a b => DbVersion.lt b a = false) svs) := by
        intro l hl1 hl2
        refine ⟨⟨1, by simp [hl1]⟩, svs1, hl2, ?_, fun _ => hpw1⟩
        intro x hx
        simp [hsv1 x hx]
      rcases e1 : runStatements drv (some v) queries
        (c.transaction.record (.beginMigration v path)) with ⟨b, c1⟩
      rw [e1] at ha1 hs1
      simp only at ha1 hs1
      cases b with
      | false =>
        obtain ⟨hk, hsv⟩ := hstop c1.log ha1 hs1
        exact ⟨hk, by simp, hsv⟩
      | true =>
        simp only
        have h2 := setVersion_log drv v c1
        rcases e2 : setVersion drv v c1 with ⟨r, c2⟩
        rw [e2] at h2
        simp only at h2
        have hend : ∀ (res : Result Bool) (c3 : QSqlDatabase σ), res ≠ .ret true →
            c3.log = c2.log →
            (∃ k, appliedScripts (res, c3).2.log
              = appliedScripts c.log ++ ((v, path) :: rest).take k) ∧
            ((res, c3).1 = .ret true →
              appliedScripts (res, c3).2.log = appliedScripts c.log ++ (v, path) :: rest) ∧
            ∃ svs, statementVersions (res, c3).2.log = statementVersions c.log ++ svs ∧
              (∀ x ∈ svs, x ∈ ((v, path) :: rest).map Prod.fst) ∧
              (QMap.Sorted ((v, path) :: rest) →
                List.Pairwise (fun a b => DbVersion.lt b a = false) svs) := by
          intro res c3 hne hlog
          obtain ⟨hk, hsv⟩ := hstop c3.log (by rw [hlog, h2.1, ha1]) (by rw [hlog, h2.2, hs1])
          exact ⟨hk, fun h => absurd h hne, hsv⟩
        cases r with
        | ret b2 =>
          cases b2 with
          | false => exact hend _ _ (by simp) (rollback_log c2)
          | true =>
            simp only
            obtain ⟨⟨k, hk⟩, hok, svs, hs, hmem, hpw⟩ := ih c2.commit
            simp only [commit_log, h2.1, h2.2, ha1, hs1] at hk hok hs
            refine ⟨⟨k + 1, by simp [hk]⟩, ?_, svs1 ++ svs, by simp [hs], ?_, ?_⟩
            · intro h
              rw [hok h]; simp
            · intro x hx
              rcases List.mem_append.1 hx with h | h
              · simp [hsv1 x h]
              · exact List.mem_cons_of_mem _ (hmem x h)
            · intro hsorted
              unfold QMap.Sorted at hsorted
              rw [List.pairwise_cons] at hsorted
              refine List.pairwise_append.2 ⟨hpw1, hpw hsorted.2, ?_⟩
              intro a ha b hb
              rw [hsv1 a ha]
              obtain ⟨e, he, rfl⟩ := List.mem_map.1 (hmem b hb)
              exact DbVersion.lt_asymm (hsorted.1 e he)
        | thrown ex => exact hend _ _ (by simp) rfl
        | terminated => exact hend _ _ (by simp) rfl

theorem QMap.constFind_sublist (m : QMap) (v : DbVersion) : (m.constFind v).Sublist m := by
  induction m with
  | nil => exact List.Sublist.refl _
  | cons e rest ih =>
    obtain ⟨k0, p0⟩ := e
    unfold QMap.constFind
    split_ifs
    · exact List.Sublist.refl _
    · exact List.Sublist.cons _ ih

theorem startIter_sublist (t : DbMigrationTool) (v : DbVersion) :
    (startIter t v).Sublist t.m_migrationPath := by
  unfold startIter
  split_ifs
  · exact List.Sublist.refl _
  · have h := QMap.constFind_sublist t.m_migrationPath v
    cases hc : t.m_migrationPath.constFind v with
    | nil => exact List.nil_sublist _
    | cons e next =>
      rw [hc] at h
      exact (List.sublist_cons_self e next).trans h

theorem QMap.constFind_tail_eq_filter {m : QMap} {v : DbVersion} (hs : m.Sorted)
    (hc : m.contains v = true) :
    (m.constFind v).tail = m.filter (fun e => v.lt e.1) := by
  induction m with
  | nil => simp [QMap.contains] at hc
  | cons e rest ih =>
    obtain ⟨k0, p0⟩ := e
    unfold QMap.Sorted at hs
    rw [List.pairwise_cons] at hs
    unfold QMap.constFind
    by_cases heq : QMap.equiv k0 v = true
    · rw [if_pos heq]
      have hkv : k0 = v := (QMap.equiv_iff k0 v).1 heq
      subst hkv
      simp only [List.tail_cons]
      rw [List.filter_cons_of_neg (by simp [DbVersion.lt_irrefl])]
      exact (List.filter_eq_self.2 (fun a ha => hs.1 a ha)).symm
    · rw [if_neg heq]
      have hc2 : QMap.contains rest v = true := by
        unfold QMap.contains at hc ⊢
        simp only [List.any_cons, Bool.or_eq_true] at hc
        rcases hc with h | h
        · exact absurd h heq
        · exact h
      obtain ⟨e2, he2, hequiv⟩ := List.any_eq_true.1 hc2
      have hv : e2.1 = v := (QMap.equiv_iff e2.1 v).1 hequiv
      have hlt : DbVersion.lt k0 v = true := by rw [← hv]; exact hs.1 e2 he2
      rw [List.filter_cons_of_neg (by simp [DbVersion.lt_asymm hlt])]
      exact ih hs.2 hc2

end Order

/-! ## Runs of `update()` -/

section Update

variable {σ : Type}

theorem getVersionField_some_table {d : DbData σ} {key : String} {x : Int}
    (h : getVersionField d key = some x) : DB_INFO_TABLE ∈ d.tables := by
  unfold getVersionField at h
  by_contra hn
  rw [if_neg hn] at h
  exact Option.noConfusion h

theorem getVersion_ok_fields {c : QSqlDatabase σ} {v : DbVersion} (h : getVersion c = .ok v) :
    ∃ a b u, getVersionField c.data DB_VERSION_MAJOR = some a ∧
      getVersionField c.data DB_VERSION_MINOR = some b ∧
      getVersionField c.data DB_VERSION_UPDATE = some u ∧
      v = { major := toUnsigned a, minor := toUnsigned b, update := toUnsigned u } := by
  unfold getVersion at h
  cases h1 : getVersionField c.data DB_VERSION_MAJOR with
  | none => rw [h1] at h; simp at h
  | some a =>
    cases h2 : getVersionField c.data DB_VERSION_MINOR with
    | none => rw [h1, h2] at h; simp at h
    | some b =>
      cases h3 : getVersionField c.data DB_VERSION_UPDATE with
      | none => rw [h1, h2, h3] at h; simp at h
      | some u =>
        rw [h1, h2, h3] at h
        simp only [Except.ok.injEq] at h
        exact ⟨a, b, u, rfl, rfl, rfl, h.symm⟩

theorem getVersion_ok_table {c : QSqlDatabase σ} {v : DbVersion} (h : getVersion c = .ok v) :
    DB_INFO_TABLE ∈ c.data.tables := by
  obtain ⟨a, _, _, h1, _⟩ := getVersion_ok_fields h
  exact getVersionField_some_table h1

theorem updatePrelude_of_table (fs : FileSystem) (drv : Driver σ) (t : DbMigrationTool)
    {c : QSqlDatabase σ} (h : DB_INFO_TABLE ∈ c.data.tables) :
    updatePrelude fs drv t c = (.ret (), t, c) := by
  have h1 : c.data.tables.isEmpty = false := by
    cases htab : c.data.tables with
    | nil => rw [htab] at h; simp at h
    | cons a l => rfl
  simp [updatePrelude, h1, h]

theorem updatePrelude_store (fs : FileSystem) (drv : Driver σ) (t : DbMigrationTool)
    (c : QSqlDatabase σ) :
    (updatePrelude fs drv t c).2.1.m_migrationPath = t.m_migrationPath := by
  unfold updatePrelude
  split_ifs
  · have h1 : (addMetaInfo drv t c).2.1.m_migrationPath = t.m_migrationPath := by
      unfold addMetaInfo
      simp only
      split
      · rfl
      · split <;> rfl
    rcases e1 : addMetaInfo drv t c with ⟨r, t1, c1⟩
    rw [e1] at h1
    cases r with
    | ret u =>
      simp only
      rcases e2 : runBaselineScripts fs drv t1 c1 with ⟨b, c2⟩
      cases b <;> exact h1
    | thrown e => exact h1
    | terminated => exact h1
  · rfl
  · rfl

theorem update_of_prelude {fs : FileSystem} {drv : Driver σ} {t t1 : DbMigrationTool}
    {c c1 : QSqlDatabase σ} (h : updatePrelude fs drv t c = (.ret (), t1, c1)) :
    (update fs drv t c).1
        = (match (runMigrationScripts fs drv t1 c1).1 with
          | .ret true => .ret ()
          | .ret false => .thrown .migrationFailed
          | .thrown e => .thrown e
          | .terminated => .terminated) ∧
    (update fs drv t c).2.1 = t1 ∧
    (update fs drv t c).2.2 = (runMigrationScripts fs drv t1 c1).2 := by
  unfold update
  rw [h]
  simp only
  rcases e : runMigrationScripts fs drv t1 c1 with ⟨r, c2⟩
  cases r with
  | ret b => cases b <;> exact ⟨rfl, rfl, rfl⟩
  | thrown e => exact ⟨rfl, rfl, rfl⟩
  | terminated => exact ⟨rfl, rfl, rfl⟩

theorem runMigrationScripts_loop {fs : FileSystem} {drv : Driver σ} {t : DbMigrationTool}
    {c : QSqlDatabase σ} {v : DbVersion} (hver : getVersion c = .ok v)
    (hne : (startIter t v).isEmpty = false) :
    appliedScripts (runMigrationScripts fs drv t c).2.log
      = appliedScripts (migrationLoop fs drv (startIter t v) c).2.log ∧
    statementVersions (runMigrationScripts fs drv t c).2.log
      = statementVersions (migrationLoop fs drv (startIter t v) c).2.log ∧
    ((runMigrationScripts fs drv t c).1 = .ret true →
      (migrationLoop fs drv (startIter t v) c).1 = .ret true) := by
  unfold runMigrationScripts
  simp only [hver, hne, Bool.false_eq_true, if_false]
  rcases e : migrationLoop fs drv (startIter t v) c with ⟨r, c1⟩
  cases r with
  | ret b =>
    cases b with
    | false => exact ⟨rfl, rfl, by simp⟩
    | true =>
      simp only
      cases hk : t.m_migrationPath.lastKey with
      | none => exact ⟨rfl, rfl, by simp⟩
      | some k =>
        simp only
        have h := setVersion_log drv k c1.commit
        exact ⟨h.1, h.2, by simp⟩
  | thrown ex => exact ⟨rfl, rfl, by simp⟩
  | terminated => exact ⟨rfl, rfl, by simp⟩

theorem runMigrationScripts_idle {fs : FileSystem} {drv : Driver σ} {t : DbMigrationTool}
    {c : QSqlDatabase σ} {v : DbVersion} (hver : getVersion c = .ok v)
    (he : (startIter t v).isEmpty = true) :
    runMigrationScripts fs drv t c = (.ret true, c) := by
  unfold runMigrationScripts
  simp only [hver, he, if_true]

theorem runMigrationScripts_error {fs : FileSystem} {drv : Driver σ} {t : DbMigrationTool}
    {c : QSqlDatabase σ} {e : DbMigrationException} (hver : getVersion c = .error e) :
    runMigrationScripts fs drv t c = (.thrown e, c) := by
  unfold runMigrationScripts
  simp only [hver]

theorem runMigrationScripts_order (fs : FileSystem) (drv : Driver σ) (t : DbMigrationTool)
    (c : QSqlDatabase σ) (hs : t.m_migrationPath.Sorted) :
    (∃ vs, appliedScripts (runMigrationScripts fs drv t c).2.log = appliedScripts c.log ++ vs ∧
      vs.Sublist t.m_migrationPath) ∧
    ∃ svs, statementVersions (runMigrationScripts fs drv t c).2.log
        = statementVersions c.log ++ svs ∧
      List.Pairwise (fun a b => DbVersion.lt b a = false) svs := by
  cases hver : getVersion c with
  | error e =>
    rw [runMigrationScripts_error hver]
    exact ⟨⟨[], by simp, List.nil_sublist _⟩, [], by simp, List.Pairwise.nil⟩
  | ok v =>
    cases he : (startIter t v).isEmpty with
    | true =>
      rw [runMigrationScripts_idle hver he]
      exact ⟨⟨[], by simp, List.nil_sublist _⟩, [], by simp, List.Pairwise.nil⟩
    | false =>
      obtain ⟨h1, h2, _⟩ := @runMigrationScripts_loop σ fs drv t c v hver he
      obtain ⟨⟨k, hk⟩, _, svs, hsv, _, hpw⟩ := migrationLoop_log fs drv (startIter t v) c
      rw [h1, h2]
      refine ⟨⟨_, hk, (List.take_sublist k _).trans (startIter_sublist t v)⟩, svs, hsv, hpw ?_⟩
      exact List.Pairwise.sublist (startIter_sublist t v) hs

theorem update_order (fs : FileSystem) (drv : Driver σ) (t : DbMigrationTool)
    (c : QSqlDatabase σ) (hs : t.m_migrationPath.Sorted) :
    (∃ vs, appliedScripts (update fs drv t c).2.2.log = appliedScripts c.log ++ vs ∧
      vs.Sublist t.m_migrationPath) ∧
    ∃ svs, statementVersions (update fs drv t c).2.2.log = statementVersions c.log ++ svs ∧
      List.Pairwise (fun a b => DbVersion.lt b a = false) svs := by
  have hlog := updatePrelude_log fs drv t c
  have hstore := updatePrelude_store fs drv t c
  rcases e : updatePrelude fs drv t c with ⟨r, t1, c1⟩
  rw [e] at hlog hstore
  simp only at hlog hstore
  have hstop : r ≠ .ret () → update fs drv t c = (r, t1, c1) := by
    intro hr
    unfold update
    rw [e]
    cases r with
    | ret u => exact absurd rfl hr
    | thrown ex => rfl
    | terminated => rfl
  cases r with
  | ret u =>
    obtain ⟨_, _, h3⟩ := update_of_prelude e
    rw [h3]
    obtain ⟨⟨vs, hvs, hsub⟩, svs, hsvs, hpw⟩ :=
      runMigrationScripts_order fs drv t1 c1 (by rw [hstore]; exact hs)
    rw [hstore] at hsub
    exact ⟨⟨vs, by rw [hvs, hlog.1], hsub⟩, svs, by rw [hsvs, hlog.2], hpw⟩
  | thrown ex =>
    rw [hstop (by simp)]
    exact ⟨⟨[], by simp [hlog.1], List.nil_sublist _⟩, [], by simp [hlog.2], List.Pairwise.nil⟩
  | terminated =>
    rw [hstop (by simp)]
    exact ⟨⟨[], by simp [hlog.1], List.nil_sublist _⟩, [], by simp [hlog.2], List.Pairwise.nil⟩

/-- C5: for a tool whose store was filled by any sequence of `addMigrationScript` calls, in
any order, and for every run of `update()` (successful or not, on any database and with any
driver), the versions of the scripts the run opens are strictly increasing under
`operator<`, and among the executed migration statements no statement of a greater
version comes before a statement of a smaller one. -/
theorem update_applies_in_ascending_order {σ : Type} (fsReg fsRun : FileSystem)
    (drv : Driver σ) (t0 : DbMigrationTool) (calls : List (String × DbVersion))
    (c : QSqlDatabase σ) :
    List.Pairwise (fun a b => DbVersion.lt a b = true)
      (appliedVersions
        (update fsRun drv (registerAll fsReg { t0 with m_migrationPath := [] } calls)
          { c with log := [] }).2.2.log) ∧
    List.Pairwise (fun a b => DbVersion.lt b a = false)
      (statementVersions
        (update fsRun drv (registerAll fsReg { t0 with m_migrationPath := [] } calls)
          { c with log := [] }).2.2.log) := by
  have hs : (registerAll fsReg { t0 with m_migrationPath := [] } calls).m_migrationPath.Sorted :=
    registerAll_sorted fsReg calls _ List.Pairwise.nil
  obtain ⟨⟨vs, hvs, hsub⟩, svs, hsvs, hpw⟩ := update_order fsRun drv _ { c with log := [] } hs
  simp only [appliedScripts, statementVersions, List.nil_append] at hvs hsvs
  unfold appliedVersions
  rw [hvs, hsvs]
  refine ⟨?_, hpw⟩
  rw [List.pairwise_map]
  exact List.Pairwise.sublist hsub hs

/-- Instance of C5: the scripts are registered as 2.0.0, 1.0.0, 1.1.0 and a fresh database
with baseline `base.sql` is updated: the run opens 1.0.0, 1.1.0, 2.0.0 in that order. -/
theorem update_applies_in_ascending_order_witness :
    appliedVersions
      (update sampleFiles journalDriver
        (registerAll sampleFiles { m_baselinePath := "base.sql" }
          [("m200.sql", ⟨2, 0, 0⟩), ("m100.sql", ⟨1, 0, 0⟩), ("m110.sql", ⟨1, 1, 0⟩)])
        emptyDb).2.2.log = [⟨1, 0, 0⟩, ⟨1, 1, 0⟩, ⟨2, 0, 0⟩] ∧
    List.Pairwise (fun a b => DbVersion.lt a b = true)
      (appliedVersions
        (update sampleFiles journalDriver
          (registerAll sampleFiles { m_baselinePath := "base.sql" }
            [("m200.sql", ⟨2, 0, 0⟩), ("m100.sql", ⟨1, 0, 0⟩), ("m110.sql", ⟨1, 1, 0⟩)])
          emptyDb).2.2.log) :=
  ⟨by decide,
    (update_applies_in_ascending_order sampleFiles sampleFiles journalDriver
      { m_baselinePath := "base.sql" }
      [("m200.sql", ⟨2, 0, 0⟩), ("m100.sql", ⟨1, 0, 0⟩), ("m110.sql", ⟨1, 1, 0⟩)] emptyDb).1⟩

end Update

/-! ## Resuming after the stored version -/

section Resume

variable {σ : Type}

theorem startIter_resume {t : DbMigrationTool} {v : DbVersion} (hflag : t.m_firstInit = false)
    (hv0 : v ≠ {}) : startIter t v = (t.m_migrationPath.constFind v).tail := by
  have h0 : v.eq {} = false := by
    cases h : v.eq {}
    · rfl
    · exact absurd ((DbVersion.eq_iff v {}).1 h) hv0
  unfold startIter
  rw [hflag, h0]
  simp only [Bool.or_self, Bool.false_eq_true, if_false]
  cases t.m_migrationPath.constFind v <;> rfl

@[simp] theorem migrationStatements_append (l1 l2 : List Event) :
    migrationStatements (l1 ++ l2) = migrationStatements l1 ++ migrationStatements l2 := by
  induction l1 with
  | nil => rfl
  | cons e es ih =>
    cases e with
    | statement o s b => cases o <;> simp [migrationStatements, ih]
    | _ => simp [migrationStatements, ih]

theorem runStatements_cases (drv : Driver σ) (v : DbVersion) (qs : List String) :
    ∀ c : QSqlDatabase σ, ∃ evs,
      (runStatements drv (some v) qs c).2.log = c.log ++ evs ∧ appliedScripts evs = [] ∧
      ((∀ ev ∈ evs, ev.succeeded = true) →
        (runStatements drv (some v) qs c).1 = true ∧
        migrationStatements evs = qs.map (fun q => (v, q))) := by
  induction qs with
  | nil => intro c; exact ⟨[], by simp [runStatements], rfl, fun _ => ⟨rfl, rfl⟩⟩
  | cons q rest ih =>
    intro c
    unfold runStatements runScript
    rcases hq : drv.exec c.data c.snapshot q with ⟨ok, d1, sn1⟩
    cases ok with
    | false =>
      refine ⟨[Event.statement (some v) q false], by simp, rfl, ?_⟩
      intro h
      have := h _ (List.mem_singleton.2 rfl)
      simp [Event.succeeded] at this
    | true =>
      simp only
      obtain ⟨evs, hlog, happ, hok⟩ :=
        ih (({ c with data := d1, snapshot := sn1 } : QSqlDatabase σ).record
          (.statement (some v) q true))
      refine ⟨Event.statement (some v) q true :: evs, ?_, ?_, ?_⟩
      · rw [hlog]; simp
      · simpa [appliedScripts] using happ
      · intro h
        obtain ⟨h1, h2⟩ := hok (fun ev hev => h ev (List.mem_cons_of_mem _ hev))
        exact ⟨h1, by simp [migrationStatements, h2]⟩

theorem setVersionField_cases (drv : Driver σ) (key : String) (x : Int) (c : QSqlDatabase σ) :
    ∃ evs, (setVersionField drv key x c).2.log = c.log ++ evs ∧ appliedScripts evs = [] ∧
      migrationStatements evs = [] ∧
      ((∀ ev ∈ evs, ev.succeeded = true) → (setVersionField drv key x c).1 = true) := by
  unfold setVersionField
  split_ifs
  · exact ⟨[Event.updateRow key x true], rfl, rfl, rfl, fun _ => rfl⟩
  · refine ⟨[Event.updateRow key x false], rfl, rfl, rfl, ?_⟩
    intro h
    have := h _ (List.mem_singleton.2 rfl)
    simp [Event.succeeded] at this

theorem setVersion_cases (drv : Driver σ) (v : DbVersion) (c : QSqlDatabase σ) :
    ∃ evs, (setVersion drv v c).2.log = c.log ++ evs ∧ appliedScripts evs = [] ∧
      migrationStatements evs = [] ∧
      ((∀ ev ∈ evs, ev.succeeded = true) → (setVersion drv v c).1 = .ret true) := by
  obtain ⟨ev1, hl1, ha1, hm1, hk1⟩ :=
    setVersionField_cases drv DB_VERSION_MAJOR (toInt v.major) c.transaction
  rcases e1 : setVersionField drv DB_VERSION_MAJOR (toInt v.major) c.transaction with ⟨b1, c1⟩
  obtain ⟨ev2, hl2, ha2, hm2, hk2⟩ := setVersionField_cases drv DB_VERSION_MINOR (toInt v.minor) c1
  rcases e2 : setVersionField drv DB_VERSION_MINOR (toInt v.minor) c1 with ⟨b2, c2⟩
  obtain ⟨ev3, hl3, ha3, hm3, hk3⟩ := setVersionField_cases drv DB_VERSION_UPDATE (toInt v.update) c2
  rcases e3 : setVersionField drv DB_VERSION_UPDATE (toInt v.update) c2 with ⟨b3, c3⟩
  rw [e1] at hl1 hk1; rw [e2] at hl2 hk2; rw [e3] at hl3 hk3
  simp only [transaction_log] at hl1 hl2 hl3 hk1 hk2 hk3
  unfold setVersion
  simp only [e1]
  cases b1 with
  | false => exact ⟨ev1, hl1, ha1, hm1, fun h => by simpa using hk1 h⟩
  | true =>
    simp only [e2]
    cases b2 with
    | false =>
      refine ⟨ev1 ++ ev2, by rw [hl2, hl1, List.append_assoc], by simp [ha1, ha2],
        by simp [hm1, hm2], fun h => ?_⟩
      simpa using hk2 (fun ev hev => h ev (List.mem_append_right _ hev))
    | true =>
      simp only [e3]
      cases b3 with
      | false =>
        refine ⟨ev1 ++ ev2 ++ ev3, by rw [hl3, hl2, hl1]; simp only [List.append_assoc],
          by simp [ha1, ha2, ha3], by simp [hm1, hm2, hm3], fun h => ?_⟩
        simpa using hk3 (fun ev hev => h ev (List.mem_append_right _ hev))
      | true =>
        exact ⟨ev1 ++ ev2 ++ ev3,
          by simp only [commit_log]; rw [hl3, hl2, hl1]; simp only [List.append_assoc],
          by simp [ha1, ha2, ha3], by simp [hm1, hm2, hm3], fun _ => rfl⟩

theorem migrationLoop_cases (fs : FileSystem) (drv : Driver σ) (iter : QMap) :
    ∀ c : QSqlDatabase σ, (∀ e ∈ iter, (readQueries fs e.2).isSome = true) →
      ∃ evs, (migrationLoop fs drv iter c).2.log = c.log ++ evs ∧
        ((∀ ev ∈ evs, ev.succeeded = true) →
          (migrationLoop fs drv iter c).1 = .ret true ∧ appliedScripts evs = iter ∧
          migrationStatements evs = scriptStatements fs iter) := by
  induction iter with
  | nil =>
    intro c _
    exact ⟨[], by simp [migrationLoop], fun _ => ⟨rfl, rfl, rfl⟩⟩
  | cons e rest ih =>
    intro c hread
    obtain ⟨v, path⟩ := e
    have hrest : ∀ e ∈ rest, (readQueries fs e.2).isSome = true :=
      fun e he => hread e (List.mem_cons_of_mem _ he)
    have hp := hread (v, path) (List.mem_cons_self _ _)
    unfold migrationLoop
    cases hr : readQueries fs path with
    | none => rw [hr] at hp; simp at hp
    | some queries =>
      simp only
      obtain ⟨ev1, hl1, ha1, hk1⟩ := runStatements_cases drv v queries
        (c.transaction.record (.beginMigration v path))
      rcases e1 : runStatements drv (some v) queries
        (c.transaction.record (.beginMigration v path)) with ⟨b, c1⟩
      rw [e1] at hl1 hk1
      simp only [record_log, transaction_log] at hl1 hk1
      cases b with
      | false =>
        refine ⟨Event.beginMigration v path :: ev1, by rw [hl1]; simp, fun h => ?_⟩
        have := (hk1 (fun ev hev => h ev (List.mem_cons_of_mem _ hev))).1
        simp at this
      | true =>
        simp only
        obtain ⟨ev2, hl2, ha2, hm2, hk2⟩ := setVersion_cases drv v c1
        rcases e2 : setVersion drv v c1 with ⟨r, c2⟩
        rw [e2] at hl2 hk2
        simp only at hl2 hk2
        have hstop : ∀ (res : Result Bool) (c3 : QSqlDatabase σ), res ≠ .ret true → r = res →
            c3.log = c2.log →
            ∃ evs, (res, c3).2.log = c.log ++ evs ∧
              ((∀ ev ∈ evs, ev.succeeded = true) →
                (res, c3).1 = .ret true ∧ appliedScripts evs = (v, path) :: rest ∧
                migrationStatements evs = scriptStatements fs ((v, path) :: rest)) := by
          intro res c3 hne hres hlog
          refine ⟨Event.beginMigration v path :: (ev1 ++ ev2),
            by simp only [hlog, hl2, hl1]; simp, fun h => ?_⟩
          have := hk2 (fun ev hev =>
            h ev (List.mem_cons_of_mem _ (List.mem_append_right _ hev)))
          rw [hres] at this
          exact absurd this hne
        cases r with
        | ret b2 =>
          cases b2 with
          | false => exact hstop _ _ (by simp) rfl (rollback_log c2)
          | true =>
            simp only
            obtain ⟨ev3, hl3, hk3⟩ := ih c2.commit hrest
            simp only [commit_log] at hl3
            refine ⟨Event.beginMigration v path :: (ev1 ++ ev2 ++ ev3),
              by rw [hl3, hl2, hl1]; simp, fun h => ?_⟩
            have h1 := hk1 (fun ev hev => h ev (List.mem_cons_of_mem _
              (List.mem_append_left _ (List.mem_append_left _ hev))))
            have h3 := hk3 (fun ev hev => h ev (List.mem_cons_of_mem _
              (List.mem_append_right _ hev)))
            refine ⟨h3.1, ?_, ?_⟩
            · simp [appliedScripts, ha1, ha2, h3.2.1]
            · simp [migrationStatements, scriptStatements, hr, h1.2, hm2, h3.2.2]
        | thrown ex => exact hstop _ _ (by simp) rfl rfl
        | terminated => exact hstop _ _ (by simp) rfl rfl

theorem runMigrationScripts_cases {fs : FileSystem} {drv : Driver σ} {t : DbMigrationTool}
    {c : QSqlDatabase σ} {v : DbVersion} (hver : getVersion c = .ok v)
    (hread : ∀ e ∈ startIter t v, (readQueries fs e.2).isSome = true) :
    ∃ evs, (runMigrationScripts fs drv t c).2.log = c.log ++ evs ∧
      ((∀ ev ∈ evs, ev.succeeded = true) →
        (runMigrationScripts fs drv t c).1 = .ret true ∧ appliedScripts evs = startIter t v ∧
        migrationStatements evs = scriptStatements fs (startIter t v)) := by
  cases he : (startIter t v).isEmpty with
  | true =>
    rw [runMigrationScripts_idle hver he]
    have : startIter t v = [] := List.isEmpty_iff.1 he
    exact ⟨[], by simp, fun _ => ⟨rfl, by rw [this]; rfl, by rw [this]; rfl⟩⟩
  | false =>
    obtain ⟨ev1, hl1, hk1⟩ := migrationLoop_cases fs drv (startIter t v) c hread
    unfold runMigrationScripts
    simp only [hver, he, Bool.false_eq_true, if_false]
    rcases e : migrationLoop fs drv (startIter t v) c with ⟨r, c1⟩
    rw [e] at hl1 hk1
    simp only at hl1 hk1
    have hstop : r ≠ .ret true →
        ∃ evs, (r, c1).2.log = c.log ++ evs ∧
          ((∀ ev ∈ evs, ev.succeeded = true) →
            (r, c1).1 = .ret true ∧ appliedScripts evs = startIter t v ∧
            migrationStatements evs = scriptStatements fs (startIter t v)) :=
      fun hne => ⟨ev1, hl1, fun h => absurd (hk1 h).1 hne⟩
    cases r with
    | ret b =>
      cases b with
      | false => exact hstop (by simp)
      | true =>
        simp only
        cases hk : t.m_migrationPath.lastKey with
        | none =>
          exfalso
          have hsub := startIter_sublist t v
          have hnil : t.m_migrationPath = [] := by
            cases hm : t.m_migrationPath with
            | nil => rfl
            | cons a l =>
              rw [hm] at hk
              simp only [QMap.lastKey] at hk
              cases hl : (a :: l).getLast? with
              | none => simp at hl
              | some x => rw [hl] at hk; simp at hk
          rw [hnil] at hsub
          have := List.eq_nil_of_sublist_nil hsub
          rw [this] at he
          simp at he
        | some k =>
          simp only
          obtain ⟨ev2, hl2, ha2, hm2, hk2⟩ := setVersion_cases drv k c1.commit
          simp only [commit_log] at hl2
          refine ⟨ev1 ++ ev2, by rw [hl2, hl1, List.append_assoc], fun h => ?_⟩
          obtain ⟨_, h12, h13⟩ := hk1 (fun ev hev => h ev (List.mem_append_left _ hev))
          refine ⟨hk2 (fun ev hev => h ev (List.mem_append_right _ hev)), ?_, ?_⟩
          · simp [h12, ha2]
          · simp [h13, hm2]
    | thrown ex => exact hstop (by simp)
    | terminated => exact hstop (by simp)

/-- C4, as the code has it: the tool has not bootstrapped (first-init flag false), the
stored version `v` is not 0.0.0 and is registered, and the script of every registered entry
above `v` can still be read. If every statement of the run succeeds, then `update()`
returns successfully, the scripts it opened are, in order and each once, exactly the
registered entries whose version is strictly greater than `v`, and the statements it
executed are exactly the statements of these scripts, entry after entry in script order:
no statement of the entry at `v` or of an entry below it is run. -/
theorem update_resumes_after_stored_version (fs : FileSystem) (drv : Driver σ)
    (t : DbMigrationTool) (c : QSqlDatabase σ) (v : DbVersion)
    (hsorted : t.m_migrationPath.Sorted) (hflag : t.m_firstInit = false)
    (hver : getVersion c = .ok v) (hv0 : v ≠ {})
    (hreg : t.m_migrationPath.contains v = true)
    (hread : ∀ e ∈ t.m_migrationPath, v.lt e.1 = true → (readQueries fs e.2).isSome = true)
    (hall : ∀ ev ∈ (update fs drv t { c with log := [] }).2.2.log, ev.succeeded = true) :
    (update fs drv t { c with log := [] }).1 = .ret () ∧
    appliedScripts (update fs drv t { c with log := [] }).2.2.log
      = t.m_migrationPath.filter (fun e => v.lt e.1) ∧
    migrationStatements (update fs drv t { c with log := [] }).2.2.log
      = scriptStatements fs (t.m_migrationPath.filter (fun e => v.lt e.1)) := by
  have hver0 : getVersion ({ c with log := [] } : QSqlDatabase σ) = .ok v := hver
  have hpre := updatePrelude_of_table fs drv t (getVersion_ok_table hver0)
  obtain ⟨h1, _, h3⟩ := update_of_prelude hpre
  have hiter : startIter t v = t.m_migrationPath.filter (fun e => v.lt e.1) := by
    rw [startIter_resume hflag hv0, QMap.constFind_tail_eq_filter hsorted hreg]
  have hread2 : ∀ e ∈ startIter t v, (readQueries fs e.2).isSome = true := by
    intro e he
    rw [hiter] at he
    obtain ⟨hmem, hlt⟩ := List.mem_filter.1 he
    exact hread e hmem hlt
  obtain ⟨evs, hlog, hk⟩ := @runMigrationScripts_cases σ fs drv t _ v hver0 hread2
  simp only [List.nil_append] at hlog
  rw [h3, hlog] at hall
  obtain ⟨hret, happ, hst⟩ := hk hall
  rw [h1, h3, hlog, hret, happ, hst, hiter]
  exact ⟨rfl, rfl, rfl⟩

/-- Instance of the amended C4, the example of the specification: stored 1.0.0 with 1.0.0,
1.1.0 and 2.0.0 registered runs the script of 1.1.0, then that of 2.0.0; the statements run
are `B1`, then `D1` and `D2`, and the journal of the database holds exactly these. -/
theorem update_resumes_after_stored_version_witness :
    (update sampleFiles journalDriver sampleTool (dbAt 1 0 0)).1 = .ret () ∧
    appliedScripts (update sampleFiles journalDriver sampleTool (dbAt 1 0 0)).2.2.log
      = [(⟨1, 1, 0⟩, "m110.sql"), (⟨2, 0, 0⟩, "m200.sql")] ∧
    migrationStatements (update sampleFiles journalDriver sampleTool (dbAt 1 0 0)).2.2.log
      = [(⟨1, 1, 0⟩, "B1"), (⟨2, 0, 0⟩, "D1"), (⟨2, 0, 0⟩, "D2")] ∧
    (update sampleFiles journalDriver sampleTool (dbAt 1 0 0)).2.2.data.user = ["B1", "D1", "D2"] :=
  (fun h => ⟨h.1, h.2.1.trans (by decide), h.2.2.trans (by decide), by decide⟩)
    (update_resumes_after_stored_version sampleFiles journalDriver sampleTool (dbAt 1 0 0)
      ⟨1, 0, 0⟩ (by decide) rfl (by decide) (by decide) (by decide) (by decide) (by decide))

/-- C4 fails as stated. The versions 1.0.0, 1.1.0 and 2.0.0 are registered while their files
are readable, and the database is at 1.0.0; then `m110.sql` is removed. In the next run of
`update()` no statement fails (none is issued), yet the entries 1.1.0 and 2.0.0, which are
above the stored version, are not run, and `update()` throws. -/
theorem update_resumes_counterexample :
    registerAll sampleFiles {}
        [("m100.sql", ⟨1, 0, 0⟩), ("m110.sql", ⟨1, 1, 0⟩), ("m200.sql", ⟨2, 0, 0⟩)]
      = sampleTool ∧
    getVersion (dbAt 1 0 0) = .ok ⟨1, 0, 0⟩ ∧
    sampleTool.m_migrationPath.filter (fun e => DbVersion.lt ⟨1, 0, 0⟩ e.1)
      = [(⟨1, 1, 0⟩, "m110.sql"), (⟨2, 0, 0⟩, "m200.sql")] ∧
    (update removedFiles journalDriver sampleTool (dbAt 1 0 0)).2.2.log.all Event.succeeded
      = true ∧
    (update removedFiles journalDriver sampleTool (dbAt 1 0 0)).1 = .thrown .migrationFailed ∧
    appliedScripts (update removedFiles journalDriver sampleTool (dbAt 1 0 0)).2.2.log = [] ∧
    migrationStatements (update removedFiles journalDriver sampleTool (dbAt 1 0 0)).2.2.log = [] := by
  decide

end Resume

/-! ## The stored version after a write -/

section Metadata

variable {σ : Type}

theorem toUnsigned_toInt {n : Nat} (h : n < 4294967296) : toUnsigned (toInt n) = n := by
  unfold toUnsigned toInt
  split_ifs <;> omega

theorem setRow_fst (key : String) (x : Int) (r : String × Option Int) :
    (setRow key x r).1 = r.1 := by
  unfold setRow; split_ifs <;> rfl

@[simp] theorem transaction_data (c : QSqlDatabase σ) : c.transaction.data = c.data := by
  unfold QSqlDatabase.transaction; split <;> rfl

theorem find_setRow (rows : List (String × Option Int)) (k key : String) (x : Int) :
    (rows.map (setRow k x)).find? (fun r => decide (r.1 = key))
      = (rows.find? (fun r => decide (r.1 = key))).map (setRow k x) := by
  induction rows with
  | nil => rfl
  | cons r rest ih =>
    simp only [List.map_cons, List.find?_cons, setRow_fst]
    split
    · rfl
    · exact ih

theorem find_isSome_eq_any (rows : List (String × Option Int)) (key : String) :
    (rows.find? (fun r => decide (r.1 = key))).isSome = rows.any (fun r => decide (r.1 = key)) := by
  induction rows with
  | nil => rfl
  | cons r rest ih =>
    simp only [List.find?_cons, List.any_cons]
    by_cases h : r.1 = key
    · simp [h]
    · simp [h, ih]

theorem setVersionField_true {drv : Driver σ} {key : String} {x : Int} {c c1 : QSqlDatabase σ}
    (h : setVersionField drv key x c = (true, c1)) :
    DB_INFO_TABLE ∈ c.data.tables ∧ c1.data.tables = c.data.tables ∧
    c1.data.rows = c.data.rows.map (setRow key x) := by
  unfold setVersionField at h
  split_ifs at h with hc
  · simp only [Prod.mk.injEq, true_and] at h
    rw [← h]
    exact ⟨hc.1, rfl, rfl⟩
  · simp at h

theorem setVersion_ret {drv : Driver σ} {v : DbVersion} {c c1 : QSqlDatabase σ}
    (h : setVersion drv v c = (.ret true, c1)) :
    DB_INFO_TABLE ∈ c1.data.tables ∧
    c1.data.rows = ((c.data.rows.map (setRow DB_VERSION_MAJOR (toInt v.major))).map
      (setRow DB_VERSION_MINOR (toInt v.minor))).map (setRow DB_VERSION_UPDATE (toInt v.update)) := by
  unfold setVersion at h
  simp only at h
  rcases e1 : setVersionField drv DB_VERSION_MAJOR (toInt v.major) c.transaction with ⟨b1, d1⟩
  rw [e1] at h
  cases b1 with
  | false => simp at h
  | true =>
    simp only at h
    rcases e2 : setVersionField drv DB_VERSION_MINOR (toInt v.minor) d1 with ⟨b2, d2⟩
    rw [e2] at h
    cases b2 with
    | false => simp at h
    | true =>
      simp only at h
      rcases e3 : setVersionField drv DB_VERSION_UPDATE (toInt v.update) d2 with ⟨b3, d3⟩
      rw [e3] at h
      cases b3 with
      | false => simp at h
      | true =>
        simp only [Prod.mk.injEq, true_and] at h
        obtain ⟨hT1, ht1, hr1⟩ := setVersionField_true e1
        obtain ⟨_, ht2, hr2⟩ := setVersionField_true e2
        obtain ⟨_, ht3, hr3⟩ := setVersionField_true e3
        rw [transaction_data] at hT1 ht1 hr1
        rw [← h]
        refine ⟨?_, ?_⟩
        · show DB_INFO_TABLE ∈ d3.data.tables
          rw [ht3, ht2, ht1]; exact hT1
        · show d3.data.rows = _
          rw [hr3, hr2, hr1]

theorem getVersionField_after_setVersion {drv : Driver σ} {v : DbVersion} {c c1 : QSqlDatabase σ}
    (h : setVersion drv v c = (.ret true, c1)) :
    getVersionField c1.data DB_VERSION_MAJOR
      = (if hasKey c.data DB_VERSION_MAJOR then some (toInt v.major) else none) ∧
    getVersionField c1.data DB_VERSION_MINOR
      = (if hasKey c.data DB_VERSION_MINOR then some (toInt v.minor) else none) ∧
    getVersionField c1.data DB_VERSION_UPDATE
      = (if hasKey c.data DB_VERSION_UPDATE then some (toInt v.update) else none) := by
  obtain ⟨hT, hrows⟩ := setVersion_ret h
  unfold getVersionField hasKey
  simp only [hT, if_true, hrows, find_setRow, ← find_isSome_eq_any]
  refine ⟨?_, ?_, ?_⟩
  · cases hf : c.data.rows.find? (fun r => decide (r.1 = DB_VERSION_MAJOR)) with
    | none => rfl
    | some r =>
      have hr : r.1 = DB_VERSION_MAJOR := by
        simpa using @List.find?_some _ (fun r : String × Option Int => decide (r.1 = DB_VERSION_MAJOR))
          r c.data.rows hf
      obtain ⟨k, x⟩ := r
      simp only at hr
      subst hr
      simp [setRow, DB_VERSION_MAJOR, DB_VERSION_MINOR, DB_VERSION_UPDATE]
  · cases hf : c.data.rows.find? (fun r => decide (r.1 = DB_VERSION_MINOR)) with
    | none => rfl
    | some r =>
      have hr : r.1 = DB_VERSION_MINOR := by
        simpa using @List.find?_some _ (fun r : String × Option Int => decide (r.1 = DB_VERSION_MINOR))
          r c.data.rows hf
      obtain ⟨k, x⟩ := r
      simp only at hr
      subst hr
      simp [setRow, DB_VERSION_MAJOR, DB_VERSION_MINOR, DB_VERSION_UPDATE]
  · cases hf : c.data.rows.find? (fun r => decide (r.1 = DB_VERSION_UPDATE)) with
    | none => rfl
    | some r =>
      have hr : r.1 = DB_VERSION_UPDATE := by
        simpa using @List.find?_some _ (fun r : String × Option Int => decide (r.1 = DB_VERSION_UPDATE))
          r c.data.rows hf
      obtain ⟨k, x⟩ := r
      simp only at hr
      subst hr
      simp [setRow, DB_VERSION_MAJOR, DB_VERSION_MINOR, DB_VERSION_UPDATE]

theorem getVersion_after_setVersion {drv : Driver σ} {v : DbVersion} {c c1 : QSqlDatabase σ}
    (h : setVersion drv v c = (.ret true, c1)) (hr : v.InRange) :
    (∀ w, getVersion c1 = .ok w → w = v) ∧
    (hasKey c.data DB_VERSION_MAJOR = true → hasKey c.data DB_VERSION_MINOR = true →
      hasKey c.data DB_VERSION_UPDATE = true → getVersion c1 = .ok v) := by
  obtain ⟨h1, h2, h3⟩ := getVersionField_after_setVersion h
  obtain ⟨r1, r2, r3⟩ := hr
  constructor
  · intro w hw
    obtain ⟨a, b, u, e1, e2, e3, hw2⟩ := getVersion_ok_fields hw
    rw [h1] at e1; rw [h2] at e2; rw [h3] at e3
    split_ifs at e1 e2 e3
    simp only [Option.some.injEq] at e1 e2 e3
    rw [hw2, ← e1, ← e2, ← e3, toUnsigned_toInt r1, toUnsigned_toInt r2, toUnsigned_toInt r3]
  · intro k1 k2 k3
    unfold getVersion
    rw [h1, h2, h3, k1, k2, k3]
    simp only [if_true, toUnsigned_toInt r1, toUnsigned_toInt r2, toUnsigned_toInt r3]

end Metadata

/-! ## The stored version after `update()` -/

section Final

variable {σ : Type}

theorem updatePrelude_no_bootstrap {fs : FileSystem} {drv : Driver σ} {t t1 : DbMigrationTool}
    {c c1 : QSqlDatabase σ} (h : updatePrelude fs drv t c = (.ret (), t1, c1))
    (hflag : t1.m_firstInit = false) :
    t1 = t ∧ c1 = c ∧ DB_INFO_TABLE ∈ c.data.tables := by
  unfold updatePrelude at h
  split_ifs at h with h1 h2
  · rcases hm : addMetaInfo drv t c with ⟨r, t2, c2⟩
    rw [hm] at h
    cases r with
    | ret u =>
      simp only at h
      rcases hb : runBaselineScripts fs drv t2 c2 with ⟨b, c3⟩
      rw [hb] at h
      cases b with
      | false => simp at h
      | true =>
        simp only [Prod.mk.injEq, true_and] at h
        have := (addMetaInfo_ret hm).1
        rw [h.1] at this
        rw [this] at hflag
        simp at hflag
    | thrown e => simp at h
    | terminated => simp at h
  · simp at h
  · simp only [Prod.mk.injEq, true_and] at h
    refine ⟨h.1.symm, h.2.symm, ?_⟩
    simpa using h2

theorem update_ret {fs : FileSystem} {drv : Driver σ} {t t1 : DbMigrationTool}
    {c c1 : QSqlDatabase σ} (h : update fs drv t c = (.ret (), t1, c1)) :
    ∃ c0, updatePrelude fs drv t c = (.ret (), t1, c0) ∧
      runMigrationScripts fs drv t1 c0 = (.ret true, c1) := by
  unfold update at h
  rcases hp : updatePrelude fs drv t c with ⟨r, t2, c2⟩
  rw [hp] at h
  cases r with
  | ret u =>
    simp only at h
    rcases hr : runMigrationScripts fs drv t2 c2 with ⟨r2, c3⟩
    rw [hr] at h
    cases r2 with
    | ret b =>
      cases b with
      | false => simp at h
      | true =>
        simp only [Prod.mk.injEq, true_and] at h
        obtain ⟨h1, h2⟩ := h
        subst h1; subst h2
        exact ⟨c2, rfl, hr⟩
    | thrown e => simp at h
    | terminated => simp at h
  | thrown e => simp at h
  | terminated => simp at h

theorem runMigrationScripts_ret {fs : FileSystem} {drv : Driver σ} {t : DbMigrationTool}
    {c c1 : QSqlDatabase σ} (h : runMigrationScripts fs drv t c = (.ret true, c1)) :
    ∃ v, getVersion c = .ok v ∧
      (((startIter t v).isEmpty = true ∧ c1 = c) ∨
        ((startIter t v).isEmpty = false ∧ ∃ c2 k,
          migrationLoop fs drv (startIter t v) c = (.ret true, c2) ∧
          t.m_migrationPath.lastKey = some k ∧ setVersion drv k c2.commit = (.ret true, c1))) := by
  cases hver : getVersion c with
  | error e => rw [runMigrationScripts_error hver] at h; simp at h
  | ok v =>
    refine ⟨v, rfl, ?_⟩
    cases he : (startIter t v).isEmpty with
    | true =>
      rw [runMigrationScripts_idle hver he] at h
      simp only [Prod.mk.injEq, true_and] at h
      exact Or.inl ⟨rfl, h.symm⟩
    | false =>
      right
      refine ⟨rfl, ?_⟩
      unfold runMigrationScripts at h
      simp only [hver, he, Bool.false_eq_true, if_false] at h
      rcases e : migrationLoop fs drv (startIter t v) c with ⟨r, c2⟩
      rw [e] at h
      cases r with
      | ret b =>
        cases b with
        | false => simp at h
        | true =>
          simp only at h
          cases hk : t.m_migrationPath.lastKey with
          | none => rw [hk] at h; simp at h
          | some k =>
            rw [hk] at h
            exact ⟨c2, k, rfl, rfl, h⟩
      | thrown ex => simp at h
      | terminated => simp at h

theorem QMap.constFind_lastKey {m : QMap} {k : DbVersion} (hs : m.Sorted)
    (hk : m.lastKey = some k) : (m.constFind k).tail = [] := by
  unfold QMap.lastKey at hk
  cases hl : m.getLast? with
  | none => rw [hl] at hk; simp at hk
  | some e =>
    rw [hl] at hk
    simp only [Option.map_some', Option.some.injEq] at hk
    obtain ⟨ys, hys⟩ := List.getLast?_eq_some_iff.1 hl
    have hc : m.contains k = true := by
      unfold QMap.contains
      rw [List.any_eq_true]
      exact ⟨e, by rw [hys]; simp, by rw [hk]; exact (QMap.equiv_iff k k).2 rfl⟩
    rw [QMap.constFind_tail_eq_filter hs hc, List.filter_eq_nil_iff]
    intro a ha
    unfold QMap.Sorted at hs
    rw [hys, List.pairwise_append] at hs
    rw [hys] at ha
    rcases List.mem_append.1 ha with h | h
    · have := hs.2.2 a h e (by simp)
      rw [hk] at this
      simp [DbVersion.lt_asymm this]
    · simp only [List.mem_singleton] at h
      rw [h, hk]
      simp [DbVersion.lt_irrefl]

/-- C1, as the code has it: the keys of the store are in range and ascending; a call of
`update()` has returned successfully, the first-init flag of the instance is still false
(the instance never bootstrapped) and the stored version is not 0.0.0. Then the next call
of `update()` on the same instance returns successfully and changes nothing: the content,
the transaction state and the log are as the first call left them, so no statement is run
and no row is written. -/
theorem update_second_call_is_noop (fs : FileSystem) (drv : Driver σ)
    (t t1 : DbMigrationTool) (c c1 : QSqlDatabase σ) (v : DbVersion)
    (hsorted : t.m_migrationPath.Sorted)
    (hrange : ∀ e ∈ t.m_migrationPath, e.1.InRange)
    (hfirst : update fs drv t c = (.ret (), t1, c1))
    (hflag : t1.m_firstInit = false)
    (hver : getVersion c1 = .ok v) (hv0 : v ≠ {}) :
    update fs drv t1 c1 = (.ret (), t1, c1) := by
  obtain ⟨c0, hpre, hrun⟩ := update_ret hfirst
  obtain ⟨ht, hc0, _⟩ := updatePrelude_no_bootstrap hpre hflag
  subst ht; subst hc0
  obtain ⟨v0, hver0, hcase⟩ := runMigrationScripts_ret hrun
  rcases hcase with ⟨_, hc⟩ | ⟨_, c2, k, _, hk, hset⟩
  · subst hc
    exact hfirst
  · have hkmem : ∃ e ∈ t1.m_migrationPath, e.1 = k := by
      unfold QMap.lastKey at hk
      cases hl : t1.m_migrationPath.getLast? with
      | none => rw [hl] at hk; simp at hk
      | some e =>
        rw [hl] at hk
        exact ⟨e, List.mem_of_getLast?_eq_some hl, by simpa using hk⟩
    obtain ⟨e, he, hek⟩ := hkmem
    have hkr : k.InRange := by rw [← hek]; exact hrange e he
    have hvk : v = k := (getVersion_after_setVersion hset hkr).1 v hver
    subst hvk
    have hidle : (startIter t1 v).isEmpty = true := by
      rw [startIter_resume hflag hv0, QMap.constFind_lastKey hsorted hk]
      rfl
    have hpre2 := updatePrelude_of_table fs drv t1 (setVersion_ret hset).1
    unfold update
    rw [hpre2]
    simp only [runMigrationScripts_idle hver hidle]

/-- Instance of the amended C1: the database is at 1.0.0, the first call applies 1.1.0 and
2.0.0, the second call leaves tool and connection as they are. -/
theorem update_second_call_is_noop_witness :
    (update sampleFiles journalDriver sampleTool (dbAt 1 0 0)).1 = .ret () ∧
    update sampleFiles journalDriver
        (update sampleFiles journalDriver sampleTool (dbAt 1 0 0)).2.1
        (update sampleFiles journalDriver sampleTool (dbAt 1 0 0)).2.2
      = (.ret (), (update sampleFiles journalDriver sampleTool (dbAt 1 0 0)).2.1,
          (update sampleFiles journalDriver sampleTool (dbAt 1 0 0)).2.2) :=
  ⟨by decide,
    update_second_call_is_noop sampleFiles journalDriver sampleTool _ (dbAt 1 0 0) _ ⟨2, 0, 0⟩
      (by decide) (by decide) (by decide) (by decide) (by decide) (by decide)⟩

/-- C1 fails as stated. After a first call that bootstrapped an empty database the
first-init flag stays set, and the second call runs every migration statement again.
And when the only registered version is 0.0.0, the stored version after the first call
is 0.0.0 and the second call runs its script again. -/
theorem update_second_call_counterexample :
    (update sampleFiles journalDriver baselineTool emptyDb).1 = .ret () ∧
    (update sampleFiles journalDriver baselineTool emptyDb).2.2.data.user
      = ["CREATE TABLE t", " A1", " A2 ", "B1", "D1", "D2"] ∧
    (update sampleFiles journalDriver
        (update sampleFiles journalDriver baselineTool emptyDb).2.1
        (update sampleFiles journalDriver baselineTool emptyDb).2.2).2.2.data.user
      = ["CREATE TABLE t", " A1", " A2 ", "B1", "D1", "D2", " A1", " A2 ", "B1", "D1", "D2"] ∧
    (update sampleFiles journalDriver zeroTool (dbAt 0 0 0)).1 = .ret () ∧
    (update sampleFiles journalDriver zeroTool (dbAt 0 0 0)).2.2.data.user = ["Z1"] ∧
    (update sampleFiles journalDriver
        (update sampleFiles journalDriver zeroTool (dbAt 0 0 0)).2.1
        (update sampleFiles journalDriver zeroTool (dbAt 0 0 0)).2.2).2.2.data.user
      = ["Z1", "Z1"] := by
  decide

end Final

end DbMigration
